import Mathlib

/-!
Verification development for the `versioned` artifact-store library.

The library offers two storage backends for named, versioned binary
artifacts:

* an object-store-only backend (`versioned/s3_only_backend.py`), which keeps
  payloads and metadata in S3 and relies on an arithmetic-complement filename
  encoding so that a lexicographic listing returns `LATEST` first and then
  numbered versions newest-first;
* a hybrid backend (`versioned/s3_and_dynamodb_backend.py`, with an earlier
  variant in `versioned/core.py`), which keeps payloads in S3 and metadata
  rows in DynamoDB, using zero-padded sort keys.

This file is a shallow embedding of the version/alias codec and of the
repository operations of both backends.  Python strings are modelled as
`String`/`List Char`, byte payloads abstractly as `Nat` (the code only ever
hashes payloads and compares hashes/entity tags), timestamps as `Int`, and
the external SHA-256 and S3-entity-tag primitives as function parameters
(the spec treats content hashing as an external pure function).

Constants: `LATEST_VERSION = "LATEST"` and `VERSION_ZFILL = 6` come from
`versioned/constants.py` (not in the provided sources; the values are pinned
by the docstring examples in `s3_only_backend.encode_filename` and by the
test-suite for the DynamoDB codec).
-/

namespace Versioned

def VERSION_ZFILL : Nat := 6

def LATEST_VERSION : String := "LATEST"

/-! ### Python string primitives

The Python code uses `str(n)` on non-negative integers, `str.zfill`,
`int(s)` on digit strings, `str.lstrip("0")` and `str.split("_")`.
They are embedded here over `List Char` / `String`.
-/

/-- Decimal representation of a natural number, fuel-indexed so that the
recursion is structural (`fuel > n` suffices; `natToChars` supplies it).
Mirrors Python `str(n)` for `n ≥ 0`: low-order digit appended last. -/
def natToCharsAux : Nat → Nat → List Char
  | 0, _ => []
  | fuel + 1, n =>
    if n < 10 then [Nat.digitChar n]
    else natToCharsAux fuel (n / 10) ++ [Nat.digitChar (n % 10)]

/-- Python `str(n)` for a natural number `n`. -/
def natToChars (n : Nat) : List Char := natToCharsAux (n + 1) n

/-- Python `str(n)`, as a `String`. -/
def natToStr (n : Nat) : String := ⟨natToChars n⟩

/-- Python `s.zfill(w)` for a string of digits (no sign handling needed:
the code only zero-fills decimal representations of naturals). -/
def zfillChars (l : List Char) (w : Nat) : List Char :=
  List.replicate (w - l.length) '0' ++ l

/-- Python `s.zfill(w)`, as a `String`. -/
def pyZfill (s : String) (w : Nat) : String := ⟨zfillChars s.data w⟩

/-- Python `int(s)` on a string of decimal digits. -/
def pyIntChars (l : List Char) : Nat :=
  l.foldl (fun acc c => 10 * acc + (c.toNat - 48)) 0

/-- Python `int(s)`, from a `String`. -/
def pyInt (s : String) : Nat := pyIntChars s.data

/-- Python `s.lstrip("0")`: drop every leading `'0'`. -/
def lstrip0 (s : String) : String := ⟨s.data.dropWhile (· == '0')⟩

/-- Python `s.split(sep)` for a one-character separator. -/
def splitOnChar (sep : Char) : List Char → List (List Char)
  | [] => [[]]
  | c :: rest =>
    if c = sep then [] :: splitOnChar sep rest
    else
      match splitOnChar sep rest with
      | [] => [[c]]
      | h :: t => (c :: h) :: t

/-! ### The version codec of the object-store-only backend
(`s3_only_backend.py`, lines 25–89) -/

/-- A Python `version` argument: `None`, an `int`, or a `str`. -/
inductive PyVersion where
  | vnone
  | vint (n : Nat)
  | vstr (s : String)
deriving DecidableEq, Repr

/-- Python `str(version)` applied to a `version` argument. -/
def pyStr : PyVersion → String
  | .vnone => "None"
  | .vint n => natToStr n
  | .vstr s => s

/-- `s3_only_backend.encode_version`: `None ↦ "LATEST"`, otherwise
`str(version)`. -/
def encode_version : PyVersion → String
  | .vnone => LATEST_VERSION
  | v => pyStr v

/-- `s3_only_backend.encode_filename`: `LATEST ↦ "000000_LATEST"`, a numeric
version `n ↦ zfill(str(10^6 − n)) ++ "_" ++ zfill(n)`. -/
def encode_filename (v : PyVersion) : String :=
  let version := encode_version v
  if version = LATEST_VERSION then
    ⟨List.replicate VERSION_ZFILL '0' ++ '_' :: LATEST_VERSION.data⟩
  else
    ⟨zfillChars (natToChars (10 ^ VERSION_ZFILL - pyInt version)) VERSION_ZFILL
      ++ '_' :: zfillChars version.data VERSION_ZFILL⟩

/-- `s3_only_backend.decode_filename`: a filename starting with six zeros
decodes to `LATEST`; otherwise `str(int(fname.split("_")[1]))`. -/
def decode_filename (version : String) : String :=
  if (List.replicate VERSION_ZFILL '0').isPrefixOf version.data then
    LATEST_VERSION
  else
    natToStr (pyIntChars ((splitOnChar '_' version.data).getD 1 []))

/-- `s3_only_backend.validate_alias_name` (defined in the module; note that
`Repository.put_alias` never calls it). -/
def validate_alias_name (aliasName : String) : Except String Unit :=
  if aliasName = LATEST_VERSION then .error "alias name cannot be LATEST"
  else if aliasName.data.contains '-' then .error "alias name cannot contain hyphen"
  else if ¬ (aliasName.data.headD ' ').isAlpha then
    .error "alias name must start with a alpha letter"
  else .ok ()

/-! ### The version codec of the hybrid backend
(`dynamodb.py` lines 23–24 and 62–64; `encode_version_sk` is referenced by
`s3_and_dynamodb_backend.py` but absent from the provided `dynamodb.py`, so
it is modelled from the spec below.) -/

/-- `dynamodb.encode_version`: `str(version).zfill(6)`. -/
def ddb_encode_version (v : PyVersion) : String := pyZfill (pyStr v) VERSION_ZFILL

/-- `dynamodb.Artifact.version`: the sort key with leading zeros stripped
(`self.sk.lstrip("0")`). -/
def ddb_decode_sk (sk : String) : String := lstrip0 sk

/-- Modelled from the spec: `dynamodb.encode_version_sk` is referenced by the
hybrid backend but missing from the provided `dynamodb.py`.  Per §4.1 of the
spec (“`None` or the `LATEST` sentinel → the literal token `LATEST`; an
integer or numeric string `n` → `n` rendered as zero-padded decimal of fixed
width”), and matching `tests/test_dynamodb.py::test_encode_version_sk`. -/
def encode_version_sk : PyVersion → String
  | .vnone => LATEST_VERSION
  | v => ddb_encode_version v

/-! ### Model of the external stores

Payload bytes are modelled abstractly as `Content := Nat`: the code never
inspects payloads, it only stores them, hashes them (external SHA-256,
modelled as a function parameter `hashF`) and compares S3 entity tags, which
S3 itself computes from the content (parameter `etagOf`; a server-side copy
preserves content and therefore the entity tag). -/

abbrev Content := Nat

/-- An object in one artifact's version keyspace: its filename/key (without
the repository suffix), payload, the `artifact_sha256` metadata entry and the
last-modified time.  (The s3uri is pure string formatting from bucket, prefix
and key and is not modelled.) -/
structure S3Obj where
  fname : String
  content : Content
  sha : Nat
  time : Int
deriving DecidableEq, Repr

/-- Boolean lexicographic comparison of keys, byte-wise — the order in which
S3 lists keys and DynamoDB sorts range keys. -/
def lexLtb : List Char → List Char → Bool
  | [], [] => false
  | [], _ :: _ => true
  | _ :: _, [] => false
  | a :: as, b :: bs =>
    if a.toNat < b.toNat then true
    else if b.toNat < a.toNat then false
    else lexLtb as bs

/-- Store a (new or replacing) object, keeping the listing in ascending key
order as S3 reports it. -/
def insertObj : List S3Obj → S3Obj → List S3Obj
  | [], o => [o]
  | x :: rest, o =>
    if o.fname = x.fname then o :: rest
    else if lexLtb o.fname.data x.fname.data then o :: x :: rest
    else x :: insertObj rest o

/-- `head_object` / existence check on a key. -/
def lookupObj (s : List S3Obj) (k : String) : Option S3Obj :=
  s.find? (fun o => o.fname = k)

/-- The public `Artifact` record returned by repository operations (both
backends): name, decoded version, update timestamp and content hash. -/
structure ArtifactRec where
  name : String
  version : String
  update_at : Int
  sha256 : Nat
deriving DecidableEq, Repr

inductive RepoError where
  | artifactNotFound
  | storageError
deriving DecidableEq, Repr

/-- The `secondary_version_weight` argument as a dynamically typed Python
value: `None`, an `int`, or a value of some other type (what the
`isinstance(secondary_version_weight, int)` check rejects). -/
inductive PyWeight where
  | wnone
  | wint (i : Int)
  | wother
deriving DecidableEq, Repr

inductive PutAliasError where
  | valueError
  | typeError
  | artifactNotFound
deriving DecidableEq, Repr

/-! ### Object-store-only backend (`s3_only_backend.Repository`)

State: the objects under `{name}/versions/`, in ascending filename order
(the code lists the artifact directory; the claims under verification only
concern states whose listed objects are version objects).  Alias JSON
documents live under `{name}/aliases/` and are modelled as a separate
list. -/

/-- The key of the mutable LATEST slot, `encode_filename(LATEST)`. -/
def latestFname : String := encode_filename .vnone

/-- `s3_only_backend.Repository.put_artifact`: hash the content; if the
LATEST object exists with the same stored hash, skip the write and return
the stored record; otherwise write LATEST (new hash metadata, new
last-modified time) and return the fresh record. -/
def s3only_put (hashF : Content → Nat) (s : List S3Obj) (name : String) (c : Content)
    (now : Int) : ArtifactRec × List S3Obj :=
  let sha := hashF c
  match lookupObj s latestFname with
  | some obj =>
    if obj.sha = sha then
      ({name := name, version := LATEST_VERSION, update_at := obj.time, sha256 := sha}, s)
    else
      ({name := name, version := LATEST_VERSION, update_at := now, sha256 := sha},
        insertObj s {fname := latestFname, content := c, sha := sha, time := now})
  | none =>
    ({name := name, version := LATEST_VERSION, update_at := now, sha256 := sha},
      insertObj s {fname := latestFname, content := c, sha := sha, time := now})

/-- `s3_only_backend.Repository.publish_artifact_version`: list at most two
objects in filename order; zero ⇒ `ArtifactNotFound`; one ⇒ copy LATEST to
version `"1"`; otherwise decode the most recent version from the second
listed filename, and either return it unchanged (its entity tag equals
LATEST's) or server-side-copy LATEST to the next version number. -/
def s3only_publish (etagOf : Content → Nat) (s : List S3Obj) (name : String) (now : Int) :
    Except RepoError (ArtifactRec × List S3Obj) :=
  match s.take 2 with
  | [] => .error .artifactNotFound
  | [_] =>
    match lookupObj s latestFname with
    | none => .error .storageError
    | some lobj =>
      .ok ({name := name, version := "1", update_at := now, sha256 := lobj.sha},
        insertObj s
          {fname := encode_filename (.vstr "1"), content := lobj.content,
            sha := lobj.sha, time := now})
  | _ :: prev :: _ =>
    let previous_version := decode_filename prev.fname
    let new_version := natToStr (pyInt previous_version + 1)
    match lookupObj s latestFname with
    | none => .error .storageError
    | some lobj =>
      if etagOf prev.content = etagOf lobj.content then
        let res : ArtifactRec :=
          {name := name, version := previous_version, update_at := prev.time, sha256 := prev.sha}
        .ok (res, s)
      else
        let obj' : S3Obj :=
          {fname := encode_filename (.vstr new_version), content := lobj.content, sha := lobj.sha, time := now}
        .ok ({name := name, version := new_version, update_at := now, sha256 := lobj.sha},
          insertObj s obj')

/-- `s3_only_backend.Repository.delete_artifact_version`: physically delete
the single object of the given version (despite its docstring, the code
calls `s3path.delete`). -/
def s3only_delete (s : List S3Obj) (v : PyVersion) : List S3Obj :=
  s.filter (fun o => ¬ o.fname = encode_filename v)

/-- The alias JSON document of the object-store-only backend (its s3uri
fields are pure formatting and are not modelled). -/
structure AliasObj where
  name : String
  aliasName : String
  version : String
  secondary_version : Option String
  secondary_version_weight : PyWeight
  update_at : Int
deriving DecidableEq, Repr

/-- Write (create or overwrite) the JSON document at `aliases/{alias}.json`. -/
def putAliasObj (l : List AliasObj) (a : AliasObj) : List AliasObj :=
  if l.any (fun x => x.aliasName = a.aliasName) then
    l.map (fun x => if x.aliasName = a.aliasName then a else x)
  else l ++ [a]

/-- `s3_only_backend.Repository.put_alias`: reject a hyphen in the alias
name; encode the primary version; when a secondary version is given, require
an integer weight in `[0, 100)` and distinct encoded versions; then check
that the referenced version objects exist, and write the alias document.
(The module-level `validate_alias_name` is never invoked here.) -/
def s3only_put_alias (s : List S3Obj) (aliases : List AliasObj) (name aliasName : String)
    (version : PyVersion) (secondary : Option PyVersion) (weight : PyWeight) (now : Int) :
    Except PutAliasError (AliasObj × List AliasObj) :=
  if aliasName.data.contains '-' then .error .valueError
  else
    let v := encode_version version
    match secondary with
    | some sv =>
      let s2 := encode_version sv
      match weight with
      | .wint i =>
        if ¬ (0 ≤ i ∧ i < 100) then .error .valueError
        else if v = s2 then .error .valueError
        else if (lookupObj s (encode_filename (.vstr v))).isNone then
          .error .artifactNotFound
        else if (lookupObj s (encode_filename (.vstr s2))).isNone then
          .error .artifactNotFound
        else
          let a : AliasObj :=
            ⟨name, aliasName, v, some s2, weight, now⟩
          .ok (a, putAliasObj aliases a)
      | _ => .error .typeError
    | none =>
      if (lookupObj s (encode_filename (.vstr v))).isNone then
        .error .artifactNotFound
      else
        let a : AliasObj :=
          ⟨name, aliasName, v, none, weight, now⟩
        .ok (a, putAliasObj aliases a)

/-! ### Hybrid backend (`s3_and_dynamodb_backend.Repository`)

State: the S3 objects of one artifact (keys `encode_version_sk(v)`) and the
artifact's DynamoDB partition (rows keyed by sort key, ascending). -/

/-- A row of the artifact's DynamoDB partition (`dynamodb.Artifact`):
sort key, `update_at`, the soft-delete flag and the content hash. -/
structure DdbRow where
  sk : String
  update_at : Int
  is_deleted : Bool
  sha256 : Nat
deriving DecidableEq, Repr

/-- Hybrid-backend state: S3 objects plus the DynamoDB partition. -/
structure HState where
  s3 : List S3Obj
  table : List DdbRow
deriving DecidableEq, Repr

/-- DynamoDB `PutItem` (PynamoDB `save`): replace the row with the same sort
key, or insert it, keeping the partition in ascending sort-key order. -/
def putRow : List DdbRow → DdbRow → List DdbRow
  | [], r => [r]
  | x :: rest, r =>
    if r.sk = x.sk then r :: rest
    else if lexLtb r.sk.data x.sk.data then r :: x :: rest
    else x :: putRow rest r

/-- DynamoDB query of the partition in descending sort-key order
(`scan_index_forward=False`). -/
def queryDesc (t : List DdbRow) : List DdbRow := t.reverse

/-- The S3 key of the hybrid backend's LATEST slot
(`get_artifact_s3path(name, LATEST)` = `encode_version_sk(LATEST)`). -/
def hybLatestKey : String := encode_version_sk (.vstr "LATEST")

/-- The public record assembled from a DynamoDB row
(`Repository._get_artifact_object`): the version is the sort key with
leading zeros stripped. -/
def rowArtifact (name : String) (r : DdbRow) : ArtifactRec :=
  {name := name, version := ddb_decode_sk r.sk, update_at := r.update_at, sha256 := r.sha256}

/-- `s3_and_dynamodb_backend.Repository.put_artifact`: hash the content; if
the S3 LATEST object exists with the same stored hash, return without any
S3 or DynamoDB write; otherwise write S3 LATEST, then save the LATEST row. -/
def hyb_put (hashF : Content → Nat) (st : HState) (name : String) (c : Content)
    (now : Int) : ArtifactRec × HState :=
  let sha := hashF c
  let obj' : S3Obj := {fname := hybLatestKey, content := c, sha := sha, time := now}
  let row : DdbRow := {sk := LATEST_VERSION, update_at := now, is_deleted := false, sha256 := sha}
  match lookupObj st.s3 hybLatestKey with
  | some obj =>
    if obj.sha = sha then
      ({name := name, version := LATEST_VERSION, update_at := obj.time, sha256 := sha}, st)
    else
      ({name := name, version := LATEST_VERSION, update_at := now, sha256 := sha},
        {s3 := insertObj st.s3 obj', table := putRow st.table row})
  | none =>
    ({name := name, version := LATEST_VERSION, update_at := now, sha256 := sha},
      {s3 := insertObj st.s3 obj', table := putRow st.table row})

/-- `s3_and_dynamodb_backend.Repository.publish_artifact_version`: query the
partition for the two most recent sort keys (soft-deleted rows included —
the query has no filter); zero rows ⇒ `ArtifactNotFound`; one row ⇒ new
version `encode_version(1)`; otherwise the decoded second row's version plus
one.  Then always copy S3 LATEST to the new versioned key and save a fresh
row carrying the LATEST row's hash and the copy's timestamp. -/
def hyb_publish (st : HState) (name : String) (now : Int) :
    Except RepoError (ArtifactRec × HState) :=
  match (queryDesc st.table).take 2 with
  | [] => .error .artifactNotFound
  | a0 :: rest =>
    let new_version : String :=
      match rest with
      | [] => ddb_encode_version (.vint 1)
      | a1 :: _ => natToStr (pyInt (ddb_decode_sk a1.sk) + 1)
    match lookupObj st.s3 hybLatestKey with
    | none => .error .storageError
    | some lobj =>
      let row : DdbRow :=
        ⟨ddb_encode_version (.vstr new_version), now, false, a0.sha256⟩
      let objNew : S3Obj :=
        ⟨encode_version_sk (.vstr new_version), lobj.content, lobj.sha, now⟩
      .ok (rowArtifact name row,
        {s3 := insertObj st.s3 objNew, table := putRow st.table row})

/-- `s3_and_dynamodb_backend.Repository.delete_artifact_version`: an
attribute-level DynamoDB update setting `is_deleted := true` on the row of
the given version (`None` means LATEST); S3 is not touched.  (On a missing
row, DynamoDB `UpdateItem` would create a partial item; the claims only
apply this operation to existing rows, where the update mutates exactly the
one attribute.) -/
def hyb_delete (st : HState) (v : Option PyVersion) : HState :=
  let key := match v with
    | none => ddb_encode_version (.vstr LATEST_VERSION)
    | some v => ddb_encode_version v
  let t := st.table.map (fun r => if r.sk = key then {r with is_deleted := true} else r)
  {st with table := t}

/-- `s3_and_dynamodb_backend.Repository.get_artifact_version` via
`_get_artifact_dynamodb_item`: fetch the row by encoded sort key; missing or
soft-deleted ⇒ `ArtifactNotFound`. -/
def hyb_get (st : HState) (name : String) (v : Option PyVersion) :
    Except RepoError ArtifactRec :=
  let vv := match v with
    | none => PyVersion.vstr LATEST_VERSION
    | some v => v
  match st.table.find? (fun r => r.sk = encode_version_sk vv) with
  | none => .error .artifactNotFound
  | some r =>
    if r.is_deleted then .error .artifactNotFound
    else .ok (rowArtifact name r)

/-- `s3_and_dynamodb_backend.Repository.list_artifact_versions`: query the
partition in descending order with the filter `is_deleted == False`. -/
def hyb_list_artifact_versions (name : String) (st : HState) : List ArtifactRec :=
  ((queryDesc st.table).filter (fun r => r.is_deleted = false)).map (rowArtifact name)

/-- The loop body of `purge_artifact_versions`: soft-delete, in order, every
remaining version strictly older than the expiry cutoff, collecting the
purged records. -/
def purgeLoop (expire : Int) : List ArtifactRec → HState → List ArtifactRec →
    HState × List ArtifactRec
  | [], st, acc => (st, acc)
  | a :: rest, st, acc =>
    if a.update_at < expire then
      purgeLoop expire rest (hyb_delete st (some (.vstr a.version))) (acc ++ [a])
    else purgeLoop expire rest st acc

/-- `s3_and_dynamodb_backend.Repository.purge_artifact_versions`: list the
live versions newest-first, skip the first `keep_last_n + 1` entries
(LATEST plus the `keep_last_n` most recent), delete those of the remainder
older than `purge_time − purge_older_than_secs`, and return the purge time
with the deleted records. -/
def hyb_purge (st : HState) (name : String) (keep_last_n : Nat)
    (purge_older_than_secs : Int) (purge_time : Int) :
    (Int × List ArtifactRec) × HState :=
  let artifact_list := hyb_list_artifact_versions name st
  let expire := purge_time - purge_older_than_secs
  let res := purgeLoop expire (artifact_list.drop (keep_last_n + 1)) st []
  ((purge_time, res.2), res.1)

/-- A row of the alias partition (`dynamodb.Alias`). -/
structure AliasRow where
  aliasName : String
  version : String
  secondary_version : Option String
  secondary_version_weight : PyWeight
  update_at : Int
deriving DecidableEq, Repr

/-- DynamoDB `PutItem` on the alias partition. -/
def putAliasRow (l : List AliasRow) (a : AliasRow) : List AliasRow :=
  if l.any (fun x => x.aliasName = a.aliasName) then
    l.map (fun x => if x.aliasName = a.aliasName then a else x)
  else l ++ [a]

/-- `s3_and_dynamodb_backend.Repository.put_alias`: reject a hyphen; encode
the primary version with `dynamodb.encode_version`; when a secondary version
is given, require an integer weight in `[0, 100)` and distinct encoded
versions; then require both referenced versions to exist and not be
soft-deleted, and save the alias row. -/
def hyb_put_alias (st : HState) (aliases : List AliasRow) (name aliasName : String)
    (version : PyVersion) (secondary : Option PyVersion) (weight : PyWeight) (now : Int) :
    Except PutAliasError (AliasRow × List AliasRow) :=
  if aliasName.data.contains '-' then .error .valueError
  else
    let v := ddb_encode_version version
    match secondary with
    | some sv =>
      let s2 := ddb_encode_version sv
      match weight with
      | .wint i =>
        if ¬ (0 ≤ i ∧ i < 100) then .error .valueError
        else if v = s2 then .error .valueError
        else
          match hyb_get st name (some (.vstr v)) with
          | .error _ => .error .artifactNotFound
          | .ok _ =>
            match hyb_get st name (some (.vstr s2)) with
            | .error _ => .error .artifactNotFound
            | .ok _ =>
              let a : AliasRow :=
                ⟨aliasName, ddb_encode_version (.vstr v),
                  some (ddb_encode_version (.vstr s2)), weight, now⟩
              .ok (a, putAliasRow aliases a)
      | _ => .error .typeError
    | none =>
      match hyb_get st name (some (.vstr v)) with
      | .error _ => .error .artifactNotFound
      | .ok _ =>
        let a : AliasRow :=
          ⟨aliasName, ddb_encode_version (.vstr v), none, weight, now⟩
        .ok (a, putAliasRow aliases a)

/-! ### Write-order traces (hybrid backends)

For the storage-before-index ordering property, each mutating operation is
instrumented as the sequence of external writes it issues, following the
same branch conditions as the state-level models above.  `core.py` is the
earlier hybrid implementation; its `publish_artifact_version` saves the
DynamoDB row *before* the S3 copy (`core.py` lines 325–332), unlike
`s3_and_dynamodb_backend.py` which copies first (lines 862–879). -/

inductive WEvent where
  | s3write (key : String)
  | ddbwrite (sk : String)
deriving DecidableEq, Repr

/-- Write sequence of `s3_and_dynamodb_backend.Repository.put_artifact`:
nothing on the dedup short-circuit, otherwise S3 write then row save. -/
def hyb_put_trace (hashF : Content → Nat) (st : HState) (c : Content) : List WEvent :=
  let sha := hashF c
  match lookupObj st.s3 hybLatestKey with
  | some obj =>
    if obj.sha = sha then []
    else [.s3write hybLatestKey, .ddbwrite LATEST_VERSION]
  | none => [.s3write hybLatestKey, .ddbwrite LATEST_VERSION]

/-- Write sequence of
`s3_and_dynamodb_backend.Repository.publish_artifact_version`: S3 copy to
the new versioned key, then the new row save. -/
def hyb_publish_trace (st : HState) : List WEvent :=
  match (queryDesc st.table).take 2 with
  | [] => []
  | _ :: rest =>
    let new_version : String :=
      match rest with
      | [] => ddb_encode_version (.vint 1)
      | a1 :: _ => natToStr (pyInt (ddb_decode_sk a1.sk) + 1)
    [.s3write (encode_version_sk (.vstr new_version)),
     .ddbwrite (ddb_encode_version (.vstr new_version))]

/-- Write sequence of `core.Repository.put_artifact` (`core.py` lines
196–239): S3 write then row save (nothing on the dedup short-circuit). -/
def core_put_trace (hashF : Content → Nat) (st : HState) (c : Content) : List WEvent :=
  let sha := hashF c
  match lookupObj st.s3 (ddb_encode_version (.vstr LATEST_VERSION)) with
  | some obj =>
    if obj.sha = sha then []
    else [.s3write (ddb_encode_version (.vstr LATEST_VERSION)), .ddbwrite LATEST_VERSION]
  | none => [.s3write (ddb_encode_version (.vstr LATEST_VERSION)), .ddbwrite LATEST_VERSION]

/-- Write sequence of `core.Repository.publish_artifact_version` (`core.py`
lines 303–333): the row save (line 327) comes before the S3 copy
(line 332). -/
def core_publish_trace (st : HState) : List WEvent :=
  match (queryDesc st.table).take 2 with
  | [] => []
  | _ :: rest =>
    let new_version : String :=
      match rest with
      | [] => "1"
      | a1 :: _ => natToStr (pyInt (ddb_decode_sk a1.sk) + 1)
    [.ddbwrite (ddb_encode_version (.vstr new_version)),
     .s3write (ddb_encode_version (.vstr new_version))]

/-- Checks that in a write trace every index (DynamoDB) write of a record is
preceded by the storage (S3) write of that record's key. -/
def storageBeforeIndexGo : List String → List WEvent → Bool
  | _, [] => true
  | written, .s3write k :: rest => storageBeforeIndexGo (k :: written) rest
  | written, .ddbwrite k :: rest => written.contains k && storageBeforeIndexGo written rest

def storageBeforeIndex (tr : List WEvent) : Bool := storageBeforeIndexGo [] tr

/-! ### A concrete object-store-only trace (claim C5)

Put payload 1, publish (creates version 1), put payload 2, publish (creates
version 2), delete version 2, publish again.  `idFn` stands in for the
external content-hash / entity-tag primitives (payloads here are plain
distinct numbers). -/

def idFn : Content → Nat := fun c => c

def c5_s1 : List S3Obj := (s3only_put idFn [] "app" 1 0).2

def c5_pub1 : Except RepoError (ArtifactRec × List S3Obj) :=
  s3only_publish idFn c5_s1 "app" 1

def c5_s2 : List S3Obj := match c5_pub1 with | .ok r => r.2 | .error _ => []

def c5_s3 : List S3Obj := (s3only_put idFn c5_s2 "app" 2 2).2

def c5_pub2 : Except RepoError (ArtifactRec × List S3Obj) :=
  s3only_publish idFn c5_s3 "app" 3

def c5_s4 : List S3Obj := match c5_pub2 with | .ok r => r.2 | .error _ => []

def c5_s5 : List S3Obj := s3only_delete c5_s4 (.vint 2)

def c5_pub3 : Except RepoError (ArtifactRec × List S3Obj) :=
  s3only_publish idFn c5_s5 "app" 4

/-! ### Facts about the decimal renderings

`digitsPad w n` is the big-endian width-`w` digit rendering of `n`; for
`n < 10 ^ w` it coincides with `zfillChars (natToChars n) w`, and it is
strictly monotone for the lexicographic character order.  These facts back
the ordering properties of `encode_filename` and the round-trip laws. -/

def digitsPad : Nat → Nat → List Char
  | 0, _ => []
  | w + 1, n => digitsPad w (n / 10) ++ [Nat.digitChar (n % 10)]

theorem natToCharsAux_congr :
    ∀ f₁ f₂ n, n < f₁ → n < f₂ → natToCharsAux f₁ n = natToCharsAux f₂ n := by
  intro f₁
  induction f₁ with
  | zero => intro f₂ n h; omega
  | succ f ih =>
    intro f₂ n h₁ h₂
    match f₂, h₂ with
    | g + 1, h₂ =>
      show natToCharsAux (f + 1) n = natToCharsAux (g + 1) n
      unfold natToCharsAux
      by_cases hn : n < 10
      · simp [hn]
      · simp only [hn, if_false]
        have hdiv : n / 10 < n := Nat.div_lt_self (by omega) (by omega)
        rw [ih g (n / 10) (by omega) (by omega)]

theorem natToChars_eq (n : Nat) :
    natToChars n =
      if n < 10 then [Nat.digitChar n]
      else natToChars (n / 10) ++ [Nat.digitChar (n % 10)] := by
  show natToCharsAux (n + 1) n = _
  unfold natToCharsAux
  by_cases hn : n < 10
  · simp [hn]
  · simp only [hn, if_false]
    have hdiv : n / 10 < n := Nat.div_lt_self (by omega) (by omega)
    rw [natToCharsAux_congr n (n / 10 + 1) (n / 10) (by omega) (by omega)]
    rfl

theorem digitsPad_zero : ∀ w, digitsPad w 0 = List.replicate w '0' := by
  intro w
  induction w with
  | zero => rfl
  | succ w ih =>
    show digitsPad w 0 ++ [Nat.digitChar 0] = _
    rw [ih, List.replicate_succ']
    rfl

theorem length_digitsPad : ∀ w n, (digitsPad w n).length = w := by
  intro w
  induction w with
  | zero => intro n; rfl
  | succ w ih =>
    intro n
    show (digitsPad w (n / 10) ++ [Nat.digitChar (n % 10)]).length = w + 1
    simp [ih]

theorem zfill_natToChars_eq_digitsPad :
    ∀ w n, n < 10 ^ w → 0 < w → zfillChars (natToChars n) w = digitsPad w n := by
  intro w
  induction w with
  | zero => intro n _ h; omega
  | succ w ih =>
    intro n hn _
    rw [natToChars_eq n]
    by_cases h10 : n < 10
    · simp only [h10, if_true]
      show List.replicate (w + 1 - 1) '0' ++ [Nat.digitChar n] = digitsPad (w + 1) n
      have hq : n / 10 = 0 := Nat.div_eq_of_lt h10
      have hr : n % 10 = n := Nat.mod_eq_of_lt h10
      show _ = digitsPad w (n / 10) ++ [Nat.digitChar (n % 10)]
      rw [hq, hr, digitsPad_zero, Nat.add_sub_cancel]
    · simp only [h10, if_false]
      have hw : 0 < w := by
        by_contra hw0
        have : w = 0 := by omega
        subst this
        simp at hn
        omega
      have hdiv : n / 10 < 10 ^ w := by
        have := (Nat.div_lt_iff_lt_mul (by omega : 0 < 10)).mpr
          (by rw [← pow_succ]; exact hn)
        exact this
      have hIH := ih (n / 10) hdiv hw
      show zfillChars (natToChars (n / 10) ++ [Nat.digitChar (n % 10)]) (w + 1) =
          digitsPad w (n / 10) ++ [Nat.digitChar (n % 10)]
      unfold zfillChars at hIH ⊢
      rw [List.length_append]
      have harith : w + 1 - ((natToChars (n / 10)).length + [Nat.digitChar (n % 10)].length) =
          w - (natToChars (n / 10)).length := by
        simp
      rw [harith, ← List.append_assoc, hIH]

theorem digitChar_lt_digitChar :
    ∀ a, a < 10 → ∀ b, b < 10 → a < b → Nat.digitChar a < Nat.digitChar b := by decide

theorem lex_append_left {t₁ t₂ : List Char} :
    ∀ {l₁ l₂ : List Char}, List.Lex (· < ·) l₁ l₂ → l₁.length = l₂.length →
      List.Lex (· < ·) (l₁ ++ t₁) (l₂ ++ t₂) := by
  intro l₁ l₂ h
  induction h with
  | nil => intro hlen; simp at hlen
  | rel hr => intro _; exact List.Lex.rel hr
  | cons _ ih =>
    intro hlen
    exact List.Lex.cons (ih (by simpa using hlen))

theorem lex_append_right {t₁ t₂ : List Char} (l : List Char)
    (h : List.Lex (· < ·) t₁ t₂) :
    List.Lex (· < ·) (l ++ t₁) (l ++ t₂) := by
  induction l with
  | nil => exact h
  | cons c l ih => exact List.Lex.cons ih

theorem digitsPad_lt :
    ∀ w a b, a < b → b < 10 ^ w → List.Lex (· < ·) (digitsPad w a) (digitsPad w b) := by
  intro w
  induction w with
  | zero => intro a b hab hb; simp at hb; omega
  | succ w ih =>
    intro a b hab hb
    have hq : a / 10 ≤ b / 10 := Nat.div_le_div_right (le_of_lt hab)
    show List.Lex (· < ·) (digitsPad w (a / 10) ++ [Nat.digitChar (a % 10)])
      (digitsPad w (b / 10) ++ [Nat.digitChar (b % 10)])
    rcases lt_or_eq_of_le hq with hlt | heq
    · have hbq : b / 10 < 10 ^ w :=
        (Nat.div_lt_iff_lt_mul (by omega : 0 < 10)).mpr (by rw [← pow_succ]; exact hb)
      exact lex_append_left (ih _ _ hlt hbq) (by rw [length_digitsPad, length_digitsPad])
    · have hmod : a % 10 < b % 10 := by
        have ha' := Nat.div_add_mod a 10
        have hb' := Nat.div_add_mod b 10
        omega
      rw [heq]
      exact lex_append_right _ (List.Lex.rel
        (digitChar_lt_digitChar _ (Nat.mod_lt _ (by omega)) _ (Nat.mod_lt _ (by omega)) hmod))

theorem string_lt_of_data_lex {s t : String} (h : List.Lex (· < ·) s.data t.data) :
    s < t := by
  rw [String.lt_iff_toList_lt]
  exact h

theorem digitChar_toNat : ∀ a, a < 10 → (Nat.digitChar a).toNat - 48 = a := by decide

theorem pyIntChars_natToChars (n : Nat) : pyIntChars (natToChars n) = n := by
  induction n using Nat.strong_induction_on with
  | _ n ih =>
    rw [natToChars_eq n]
    by_cases h10 : n < 10
    · simp only [h10, if_true]
      show 10 * 0 + ((Nat.digitChar n).toNat - 48) = n
      rw [digitChar_toNat n h10]
      omega
    · simp only [h10, if_false]
      show List.foldl _ 0 (natToChars (n / 10) ++ [Nat.digitChar (n % 10)]) = n
      rw [List.foldl_append]
      have hdiv : n / 10 < n := Nat.div_lt_self (by omega) (by omega)
      have hfold : List.foldl (fun acc c => 10 * acc + (c.toNat - 48)) 0 (natToChars (n / 10))
          = n / 10 := ih (n / 10) hdiv
      show 10 * (List.foldl _ 0 (natToChars (n / 10))) + ((Nat.digitChar (n % 10)).toNat - 48) = n
      rw [hfold, digitChar_toNat _ (Nat.mod_lt _ (by omega))]
      omega

theorem pyIntChars_replicate_zero :
    ∀ k (l : List Char), pyIntChars (List.replicate k '0' ++ l) = pyIntChars l := by
  intro k
  induction k with
  | zero => intro l; rfl
  | succ k ih =>
    intro l
    show List.foldl _ 0 ('0' :: (List.replicate k '0' ++ l)) = _
    show List.foldl _ (10 * 0 + ('0'.toNat - 48)) (List.replicate k '0' ++ l) = _
    exact ih l

theorem dropWhile_zero_replicate :
    ∀ k (l : List Char),
      List.dropWhile (· == '0') (List.replicate k '0' ++ l) = List.dropWhile (· == '0') l := by
  intro k
  induction k with
  | zero => intro l; rfl
  | succ k ih => intro l; simp [List.replicate_succ, List.dropWhile, ih l]

theorem natToChars_ne_nil (n : Nat) : natToChars n ≠ [] := by
  rw [natToChars_eq n]
  by_cases h10 : n < 10 <;> simp [h10]

theorem digitChar_ne_zero : ∀ n, 1 ≤ n → n < 10 → (Nat.digitChar n == '0') = false := by decide

theorem dropWhile_zero_natToChars (n : Nat) (h : 1 ≤ n) :
    List.dropWhile (· == '0') (natToChars n) = natToChars n := by
  induction n using Nat.strong_induction_on with
  | _ n ih =>
    rw [natToChars_eq n]
    by_cases h10 : n < 10
    · simp only [h10, if_true]
      simp [List.dropWhile, digitChar_ne_zero n h h10]
    · simp only [h10, if_false]
      have hdiv : n / 10 < n := Nat.div_lt_self (by omega) (by omega)
      have h1 : 1 ≤ n / 10 := by
        have := Nat.div_le_div_right (c := 10) (by omega : 10 ≤ n)
        simpa using this
      have hIH := ih (n / 10) hdiv h1
      obtain ⟨c, rest, hcr⟩ : ∃ c rest, natToChars (n / 10) = c :: rest := by
        rcases hn : natToChars (n / 10) with _ | ⟨c, rest⟩
        · exact absurd hn (natToChars_ne_nil _)
        · exact ⟨c, rest, rfl⟩
      have hc : (c == '0') = false := by
        by_contra hcontra
        have hc' : (c == '0') = true := by
          cases hb : (c == '0') <;> simp_all
        have := hIH
        rw [hcr] at this
        simp [List.dropWhile, hc'] at this
        have hlen := congrArg List.length this
        simp at hlen
        have := (List.dropWhile_sublist (l := rest) (· == '0')).length_le
        omega
      rw [hcr]
      simp [List.dropWhile, hc]

theorem natToChars_head (n : Nat) :
    ∃ d, d < 10 ∧ ∃ t, natToChars n = Nat.digitChar d :: t := by
  induction n using Nat.strong_induction_on with
  | _ n ih =>
    rw [natToChars_eq n]
    by_cases h10 : n < 10
    · exact ⟨n, h10, [], by simp [h10]⟩
    · have hdiv : n / 10 < n := Nat.div_lt_self (by omega) (by omega)
      obtain ⟨d, hd, t, ht⟩ := ih (n / 10) hdiv
      exact ⟨d, hd, t ++ [Nat.digitChar (n % 10)], by simp [h10, ht]⟩

theorem natToChars_digits (n : Nat) :
    ∀ c ∈ natToChars n, ∃ d, d < 10 ∧ c = Nat.digitChar d := by
  induction n using Nat.strong_induction_on with
  | _ n ih =>
    rw [natToChars_eq n]
    by_cases h10 : n < 10
    · simp only [h10, if_true]
      intro c hc
      simp at hc
      exact ⟨n, h10, hc⟩
    · simp only [h10, if_false]
      intro c hc
      have hdiv : n / 10 < n := Nat.div_lt_self (by omega) (by omega)
      rcases List.mem_append.mp hc with hc' | hc'
      · exact ih (n / 10) hdiv c hc'
      · simp at hc'
        exact ⟨n % 10, Nat.mod_lt _ (by omega), hc'⟩

theorem digitChar_ne_latest_head : ∀ d, d < 10 → Nat.digitChar d ≠ 'L' := by decide

theorem digitChar_ne_underscore : ∀ d, d < 10 → Nat.digitChar d ≠ '_' := by decide

theorem natToStr_ne_latest (n : Nat) : natToStr n ≠ LATEST_VERSION := by
  intro hcontra
  have hdata : natToChars n = LATEST_VERSION.data := congrArg String.data hcontra
  obtain ⟨d, hd, t, ht⟩ := natToChars_head n
  rw [ht] at hdata
  have hL : Nat.digitChar d = 'L' := by
    have := congrArg (List.headD · ' ') hdata
    simpa [LATEST_VERSION] using this
  exact digitChar_ne_latest_head d hd hL

theorem zfill_chars_ne_latest (n pads : Nat) :
    (⟨List.replicate pads '0' ++ natToChars n⟩ : String) ≠ LATEST_VERSION := by
  intro hcontra
  have hdata : List.replicate pads '0' ++ natToChars n = LATEST_VERSION.data :=
    congrArg String.data hcontra
  cases pads with
  | zero =>
    obtain ⟨d, hd, t, ht⟩ := natToChars_head n
    rw [List.replicate_zero, List.nil_append, ht] at hdata
    have hL : Nat.digitChar d = 'L' := by
      have := congrArg (List.headD · ' ') hdata
      simpa [LATEST_VERSION] using this
    exact digitChar_ne_latest_head d hd hL
  | succ k =>
    rw [List.replicate_succ] at hdata
    have hhead := congrArg (List.headD · ' ') hdata
    simp [LATEST_VERSION] at hhead

theorem underscore_not_mem_padded (n pads : Nat) :
    '_' ∉ List.replicate pads '0' ++ natToChars n := by
  intro hmem
  rcases List.mem_append.mp hmem with h | h
  · have := List.eq_of_mem_replicate h
    simp at this
  · obtain ⟨d, hd, hc⟩ := natToChars_digits n _ h
    exact digitChar_ne_underscore d hd hc.symm

theorem splitOnChar_no_sep (sep : Char) :
    ∀ l, sep ∉ l → splitOnChar sep l = [l] := by
  intro l
  induction l with
  | nil => intro _; rfl
  | cons c rest ih =>
    intro hmem
    have hc : ¬ c = sep := fun h => hmem (h ▸ List.mem_cons_self c rest)
    have hrest : sep ∉ rest := fun h => hmem (List.mem_cons_of_mem c h)
    show splitOnChar sep (c :: rest) = [c :: rest]
    unfold splitOnChar
    simp only [hc, if_false, ih hrest]

theorem splitOnChar_append (sep : Char) :
    ∀ l₁ l₂, sep ∉ l₁ → splitOnChar sep (l₁ ++ sep :: l₂) = l₁ :: splitOnChar sep l₂ := by
  intro l₁
  induction l₁ with
  | nil =>
    intro l₂ _
    show splitOnChar sep (sep :: l₂) = [] :: splitOnChar sep l₂
    simp [splitOnChar]
  | cons c rest ih =>
    intro l₂ hmem
    have hc : ¬ c = sep := fun h => hmem (h ▸ List.mem_cons_self c rest)
    have hrest : sep ∉ rest := fun h => hmem (List.mem_cons_of_mem c h)
    show splitOnChar sep (c :: (rest ++ sep :: l₂)) = (c :: rest) :: splitOnChar sep l₂
    simp only [splitOnChar, hc, if_false, ih l₂ hrest]

theorem isPrefixOf_eq_false_of_ne {l₁ l₂ r : List Char} (hlen : l₁.length = l₂.length)
    (hne : l₁ ≠ l₂) : l₁.isPrefixOf (l₂ ++ r) = false := by
  by_contra hcontra
  have htrue : l₁.isPrefixOf (l₂ ++ r) = true := by
    cases hb : l₁.isPrefixOf (l₂ ++ r) <;> simp_all
  have hpre : l₁ <+: (l₂ ++ r) := List.isPrefixOf_iff_prefix.mp htrue
  obtain ⟨t, ht⟩ := hpre
  have := congrArg (List.take l₁.length) ht
  rw [List.take_left] at this
  rw [List.take_left' hlen.symm] at this
  exact hne this

theorem digitsPad_ne_replicate_zero {w c : Nat} (h1 : 1 ≤ c) (h2 : c < 10 ^ w) :
    List.replicate w '0' ≠ digitsPad w c := by
  rw [← digitsPad_zero]
  have hlt : (digitsPad w 0 : List Char) < digitsPad w c := digitsPad_lt w 0 c h1 h2
  exact ne_of_lt hlt

/-- Core round-trip computation for `decode_filename ∘ encode_filename` on a
numeric version `n` whose second field is `n` preceded by any number of
zero-fill characters. -/
theorem decode_filename_core (n : Nat) (h1 : 1 ≤ n) (h2 : n ≤ 999999) (pads : Nat) :
    decode_filename
      ⟨zfillChars (natToChars (10 ^ 6 - n)) 6 ++ '_' ::
        (List.replicate pads '0' ++ natToChars n)⟩ = natToStr n := by
  have hc1 : 1 ≤ 10 ^ 6 - n := by norm_num; omega
  have hc2 : 10 ^ 6 - n < 10 ^ 6 := by norm_num; omega
  have hzf : zfillChars (natToChars (10 ^ 6 - n)) 6 = digitsPad 6 (10 ^ 6 - n) :=
    zfill_natToChars_eq_digitsPad 6 _ hc2 (by omega)
  unfold decode_filename
  have hpref : (List.replicate VERSION_ZFILL '0').isPrefixOf
      ((⟨zfillChars (natToChars (10 ^ 6 - n)) 6 ++ '_' ::
        (List.replicate pads '0' ++ natToChars n)⟩ : String).data) = false := by
    show (List.replicate VERSION_ZFILL '0').isPrefixOf
      (zfillChars (natToChars (10 ^ 6 - n)) 6 ++ '_' ::
        (List.replicate pads '0' ++ natToChars n)) = false
    rw [hzf]
    exact isPrefixOf_eq_false_of_ne
      (by simp [VERSION_ZFILL, List.length_replicate, length_digitsPad])
      (by
        show List.replicate VERSION_ZFILL '0' ≠ _
        exact digitsPad_ne_replicate_zero hc1 hc2)
  rw [hpref]
  simp only [Bool.false_eq_true, if_false]
  have hsplit : splitOnChar '_'
      ((⟨zfillChars (natToChars (10 ^ 6 - n)) 6 ++ '_' ::
        (List.replicate pads '0' ++ natToChars n)⟩ : String).data) =
      [zfillChars (natToChars (10 ^ 6 - n)) 6, List.replicate pads '0' ++ natToChars n] := by
    show splitOnChar '_' (zfillChars (natToChars (10 ^ 6 - n)) 6 ++ '_' ::
        (List.replicate pads '0' ++ natToChars n)) = _
    rw [splitOnChar_append '_' _ _ (by
        rw [hzf]
        intro hmem
        have h0 : '_' ∉ List.replicate 6 '0' ++ natToChars (10 ^ 6 - n) := by
          have := underscore_not_mem_padded (10 ^ 6 - n) 6
          exact this
        rw [← zfill_natToChars_eq_digitsPad 6 _ hc2 (by omega)] at hmem
        unfold zfillChars at hmem
        rcases List.mem_append.mp hmem with h | h
        · have := List.eq_of_mem_replicate h
          simp at this
        · obtain ⟨d, hd, hcd⟩ := natToChars_digits _ _ h
          exact digitChar_ne_underscore d hd hcd.symm),
      splitOnChar_no_sep '_' _ (underscore_not_mem_padded n pads)]
  rw [hsplit]
  show natToStr (pyIntChars (List.replicate pads '0' ++ natToChars n)) = natToStr n
  rw [pyIntChars_replicate_zero, pyIntChars_natToChars]

theorem encode_filename_vint (n : Nat) :
    encode_filename (.vint n) =
      ⟨zfillChars (natToChars (10 ^ 6 - n)) 6 ++ '_' :: zfillChars (natToChars n) 6⟩ := by
  show (if natToStr n = LATEST_VERSION then _ else _) = _
  rw [if_neg (natToStr_ne_latest n)]
  show (⟨zfillChars (natToChars (10 ^ VERSION_ZFILL - pyInt (natToStr n))) VERSION_ZFILL
      ++ '_' :: zfillChars (natToStr n).data VERSION_ZFILL⟩ : String) = _
  rw [show pyInt (natToStr n) = n from pyIntChars_natToChars n]
  rfl

theorem decode_encode_vstr (n p : Nat) (h1 : 1 ≤ n) (h2 : n ≤ 999999) :
    decode_filename
      (encode_filename (.vstr ⟨List.replicate p '0' ++ natToChars n⟩)) = natToStr n := by
  have hne := zfill_chars_ne_latest n p
  show decode_filename
    (if (⟨List.replicate p '0' ++ natToChars n⟩ : String) = LATEST_VERSION then _ else _) = _
  rw [if_neg hne]
  have hint : pyInt (⟨List.replicate p '0' ++ natToChars n⟩ : String) = n := by
    show pyIntChars (List.replicate p '0' ++ natToChars n) = n
    rw [pyIntChars_replicate_zero, pyIntChars_natToChars]
  show decode_filename ⟨zfillChars (natToChars
      (10 ^ VERSION_ZFILL - pyInt (⟨List.replicate p '0' ++ natToChars n⟩ : String)))
      VERSION_ZFILL ++ '_' ::
      zfillChars (List.replicate p '0' ++ natToChars n) VERSION_ZFILL⟩ = natToStr n
  rw [hint]
  have hre : zfillChars (List.replicate p '0' ++ natToChars n) VERSION_ZFILL =
      List.replicate (VERSION_ZFILL - (List.replicate p '0' ++ natToChars n).length + p) '0'
        ++ natToChars n := by
    unfold zfillChars
    rw [List.replicate_add, List.append_assoc]
  rw [hre]
  exact decode_filename_core n h1 h2 _

theorem lstrip_zfill_natToStr (n : Nat) (h1 : 1 ≤ n) :
    lstrip0 (pyZfill (natToStr n) VERSION_ZFILL) = natToStr n := by
  show (⟨List.dropWhile (· == '0')
    (List.replicate (VERSION_ZFILL - (natToChars n).length) '0' ++ natToChars n)⟩
      : String) = natToStr n
  rw [dropWhile_zero_replicate, dropWhile_zero_natToChars n h1]
  rfl

theorem ddb_roundtrip_vstr (n p : Nat) (h1 : 1 ≤ n) :
    ddb_decode_sk (ddb_encode_version (.vstr ⟨List.replicate p '0' ++ natToChars n⟩)) =
      natToStr n := by
  show (⟨List.dropWhile (· == '0')
    (List.replicate (VERSION_ZFILL - (List.replicate p '0' ++ natToChars n).length) '0' ++
      (List.replicate p '0' ++ natToChars n))⟩ : String) = natToStr n
  rw [dropWhile_zero_replicate, dropWhile_zero_replicate, dropWhile_zero_natToChars n h1]
  rfl

/-! ### Claim C8: complement-key filename ordering -/

/-- C8.  `encode_filename` maps a numeric version `n` (width `W = 6`) to
the complement `10^W − n`, zero-padded, as primary sort field, with the
zero-padded version as secondary field (`encode_filename 2 = "999998_000002"`),
and maps `LATEST`/`None` to the complement-zero key `"000000_LATEST"`; for
numeric versions `a < b` in range, `encode_filename b < encode_filename a`
lexicographically, and the `LATEST` encoding sorts strictly before every
numeric encoding, so an ascending listing yields `LATEST` first, then
versions newest-first. -/
theorem C8_encode_filename_complement_ordering :
    encode_filename (.vint 2) = "999998_000002" ∧
    encode_filename .vnone = "000000_LATEST" ∧
    encode_filename (.vstr "LATEST") = "000000_LATEST" ∧
    (∀ n : Nat, 1 ≤ n → n ≤ 999999 →
      encode_filename (.vint n) =
        pyZfill (natToStr (10 ^ 6 - n)) 6 ++ "_" ++ pyZfill (natToStr n) 6) ∧
    (∀ a b : Nat, 1 ≤ a → a < b → b ≤ 999999 →
      encode_filename (.vint b) < encode_filename (.vint a)) ∧
    (∀ n : Nat, 1 ≤ n → n ≤ 999999 →
      encode_filename .vnone < encode_filename (.vint n)) := by
  have hpow : (10 : Nat) ^ 6 = 1000000 := by norm_num
  refine ⟨by decide, by decide, by decide, ?_, ?_, ?_⟩
  · intro n h1 h2
    rw [encode_filename_vint n]
    apply congrArg String.mk
    show _ = (pyZfill (natToStr (10 ^ 6 - n)) 6).data ++ "_".data ++ (pyZfill (natToStr n) 6).data
    rw [List.append_assoc]
    rfl
  · intro a b ha hab hb
    rw [encode_filename_vint a, encode_filename_vint b]
    apply string_lt_of_data_lex
    show List.Lex (· < ·)
      (zfillChars (natToChars (10 ^ 6 - b)) 6 ++ '_' :: zfillChars (natToChars b) 6)
      (zfillChars (natToChars (10 ^ 6 - a)) 6 ++ '_' :: zfillChars (natToChars a) 6)
    rw [zfill_natToChars_eq_digitsPad 6 (10 ^ 6 - b) (by omega) (by omega),
        zfill_natToChars_eq_digitsPad 6 (10 ^ 6 - a) (by omega) (by omega)]
    exact lex_append_left (digitsPad_lt 6 _ _ (by omega) (by omega))
      (by rw [length_digitsPad, length_digitsPad])
  · intro n h1 h2
    rw [encode_filename_vint n]
    apply string_lt_of_data_lex
    show List.Lex (· < ·)
      (List.replicate VERSION_ZFILL '0' ++ '_' :: LATEST_VERSION.data)
      (zfillChars (natToChars (10 ^ 6 - n)) 6 ++ '_' :: zfillChars (natToChars n) 6)
    rw [zfill_natToChars_eq_digitsPad 6 (10 ^ 6 - n) (by omega) (by omega)]
    have hrep : List.replicate VERSION_ZFILL '0' = digitsPad 6 0 := by
      rw [digitsPad_zero]
      rfl
    rw [hrep]
    exact lex_append_left (digitsPad_lt 6 0 _ (by omega) (by omega))
      (by rw [length_digitsPad, length_digitsPad])

/-- Witness for C8: the ordering facts instantiated at versions 1 and 2. -/
theorem C8_witness :
    encode_filename (.vint 2) < encode_filename (.vint 1) ∧
    encode_filename .vnone < encode_filename (.vint 1) :=
  ⟨C8_encode_filename_complement_ordering.2.2.2.2.1 1 2 (by decide) (by decide) (by decide),
   C8_encode_filename_complement_ordering.2.2.2.2.2 1 (by decide) (by decide)⟩

/-! ### Claim C9: decoding inverts encoding -/

/-- C9.  For the valid version inputs (`None`, the `LATEST` sentinel, a
positive integer, a numeric string, an already zero-padded string), decoding
the encoded form yields the canonical unpadded version: `decode_filename`
inverts `encode_filename` in the object-store-only backend, and stripping
leading zeros from the padded sort key inverts the hybrid backend's
`encode_version`, except that decoding the all-zero sort key `"000000"`
yields the empty string. -/
theorem C9_decode_inverts_encode :
    decode_filename (encode_filename .vnone) = "LATEST" ∧
    decode_filename (encode_filename (.vstr "LATEST")) = "LATEST" ∧
    (∀ n : Nat, 1 ≤ n → n ≤ 999999 →
      decode_filename (encode_filename (.vint n)) = natToStr n) ∧
    (∀ n k : Nat, 1 ≤ n → n ≤ 999999 →
      decode_filename (encode_filename (.vstr (pyZfill (natToStr n) k))) = natToStr n) ∧
    ddb_decode_sk (encode_version_sk .vnone) = "LATEST" ∧
    ddb_decode_sk (ddb_encode_version (.vstr "LATEST")) = "LATEST" ∧
    (∀ n : Nat, 1 ≤ n → ddb_decode_sk (ddb_encode_version (.vint n)) = natToStr n) ∧
    (∀ n k : Nat, 1 ≤ n →
      ddb_decode_sk (ddb_encode_version (.vstr (pyZfill (natToStr n) k))) = natToStr n) ∧
    ddb_decode_sk (ddb_encode_version (.vint 0)) = "" := by
  refine ⟨by decide, by decide, ?_, ?_, by decide, by decide, ?_, ?_, by decide⟩
  · intro n h1 h2
    rw [encode_filename_vint n]
    exact decode_filename_core n h1 h2 _
  · intro n k h1 h2
    exact decode_encode_vstr n (k - (natToChars n).length) h1 h2
  · intro n h1
    exact lstrip_zfill_natToStr n h1
  · intro n k h1
    exact ddb_roundtrip_vstr n (k - (natToChars n).length) h1

/-! ### Lemmas about the keyed stores -/

theorem lookupObj_insertObj_self (s : List S3Obj) (o : S3Obj) :
    lookupObj (insertObj s o) o.fname = some o := by
  induction s with
  | nil => simp [insertObj, lookupObj, List.find?]
  | cons x rest ih =>
    by_cases hk : o.fname = x.fname
    · simp [insertObj, hk, lookupObj, List.find?]
    · by_cases hlt : lexLtb o.fname.data x.fname.data
      · simp [insertObj, hk, hlt, lookupObj, List.find?]
      · unfold insertObj
        simp only [hk, if_false, hlt, if_false]
        unfold lookupObj at ih ⊢
        simp only [List.find?]
        have hx : (decide (x.fname = o.fname)) = false := by
          simp
          exact fun h => hk h.symm
        rw [hx]
        exact ih

theorem lookupObj_insertObj_ne (s : List S3Obj) (o : S3Obj) (k : String)
    (h : ¬ k = o.fname) : lookupObj (insertObj s o) k = lookupObj s k := by
  induction s with
  | nil =>
    have ho : (decide (o.fname = k)) = false := by
      simp
      exact fun heq => h heq.symm
    simp [insertObj, lookupObj, List.find?, ho]
  | cons x rest ih =>
    by_cases hk : o.fname = x.fname
    · unfold insertObj
      simp only [hk, if_pos rfl]
      unfold lookupObj
      simp only [List.find?]
      have ho : (decide (o.fname = k)) = false := by
        simp
        exact fun heq => h heq.symm
      have hx : (decide (x.fname = k)) = false := by
        simp
        intro heq
        exact h (by rw [← heq, ← hk])
      rw [ho, hx]
    · by_cases hlt : lexLtb o.fname.data x.fname.data
      · unfold insertObj
        simp only [hk, if_false, hlt, if_true]
        unfold lookupObj
        simp only [List.find?]
        have ho : (decide (o.fname = k)) = false := by
          simp
          exact fun heq => h heq.symm
        rw [ho]
      · unfold insertObj
        simp only [hk, if_false, hlt, if_false]
        unfold lookupObj at ih ⊢
        simp only [List.find?]
        cases hx : (decide (x.fname = k)) with
        | true => rfl
        | false => exact ih

theorem findRow_putRow_self (t : List DdbRow) (r : DdbRow) :
    (putRow t r).find? (fun x => x.sk = r.sk) = some r := by
  induction t with
  | nil => simp [putRow, List.find?]
  | cons x rest ih =>
    by_cases hk : r.sk = x.sk
    · simp [putRow, hk, List.find?]
    · by_cases hlt : lexLtb r.sk.data x.sk.data
      · simp [putRow, hk, hlt, List.find?]
      · unfold putRow
        simp only [hk, if_false, hlt, if_false]
        simp only [List.find?]
        have hx : (decide (x.sk = r.sk)) = false := by
          simp
          exact fun h => hk h.symm
        rw [hx]
        exact ih

theorem findRow_putRow_ne (t : List DdbRow) (r : DdbRow) (k : String)
    (h : ¬ k = r.sk) :
    (putRow t r).find? (fun x => x.sk = k) = t.find? (fun x => x.sk = k) := by
  induction t with
  | nil =>
    have hr : (decide (r.sk = k)) = false := by
      simp
      exact fun heq => h heq.symm
    simp [putRow, List.find?, hr]
  | cons x rest ih =>
    by_cases hk : r.sk = x.sk
    · unfold putRow
      simp only [hk, if_pos rfl]
      simp only [List.find?]
      have hr : (decide (r.sk = k)) = false := by
        simp
        exact fun heq => h heq.symm
      have hx : (decide (x.sk = k)) = false := by
        simp
        intro heq
        exact h (by rw [← heq, ← hk])
      rw [hr, hx]
    · by_cases hlt : lexLtb r.sk.data x.sk.data
      · unfold putRow
        simp only [hk, if_false, hlt, if_true]
        simp only [List.find?]
        have hr : (decide (r.sk = k)) = false := by
          simp
          exact fun heq => h heq.symm
        rw [hr]
      · unfold putRow
        simp only [hk, if_false, hlt, if_false]
        simp only [List.find?]
        cases hx : (decide (x.sk = k)) with
        | true => rfl
        | false => exact ih

/-- Witness for C9: the round-trips instantiated at version 2 (and its padded
string form "000002"). -/
theorem C9_witness :
    decode_filename (encode_filename (.vint 2)) = natToStr 2 ∧
    decode_filename (encode_filename (.vstr (pyZfill (natToStr 2) 6))) = natToStr 2 ∧
    ddb_decode_sk (ddb_encode_version (.vint 2)) = natToStr 2 :=
  ⟨C9_decode_inverts_encode.2.2.1 2 (by decide) (by decide),
   C9_decode_inverts_encode.2.2.2.1 2 6 (by decide) (by decide),
   C9_decode_inverts_encode.2.2.2.2.2.2.1 2 (by decide)⟩

/-! ### Claim C2: put_artifact deduplication / rewrite behaviour -/

/-- After any `put_artifact`, the LATEST object holds the hash of the put
content (object-store-only backend). -/
theorem s3only_put_latest (hashF : Content → Nat) (s : List S3Obj) (name : String)
    (c : Content) (now : Int) :
    ∃ obj, lookupObj (s3only_put hashF s name c now).2 latestFname = some obj ∧
      obj.sha = hashF c := by
  unfold s3only_put
  cases hl : lookupObj s latestFname with
  | some obj =>
    by_cases hsha : obj.sha = hashF c
    · simp only [hl, hsha, if_pos rfl]
      exact ⟨obj, hl, hsha⟩
    · simp only [hl, hsha, if_false]
      exact ⟨_, lookupObj_insertObj_self s _, rfl⟩
  | none =>
    simp only [hl]
    exact ⟨_, lookupObj_insertObj_self s _, rfl⟩

/-- After any `put_artifact`, the LATEST object holds the hash of the put
content (hybrid backend). -/
theorem hyb_put_latest (hashF : Content → Nat) (st : HState) (name : String)
    (c : Content) (now : Int) :
    ∃ obj, lookupObj (hyb_put hashF st name c now).2.s3 hybLatestKey = some obj ∧
      obj.sha = hashF c := by
  unfold hyb_put
  cases hl : lookupObj st.s3 hybLatestKey with
  | some obj =>
    by_cases hsha : obj.sha = hashF c
    · simp only [hl, hsha, if_pos rfl]
      exact ⟨obj, hl, hsha⟩
    · simp only [hl, hsha, if_false]
      exact ⟨_, lookupObj_insertObj_self st.s3 _, rfl⟩
  | none =>
    simp only [hl]
    exact ⟨_, lookupObj_insertObj_self st.s3 _, rfl⟩

/-- `put_artifact`'s dedup branch (object-store-only backend): LATEST exists
with the same stored hash — nothing is written. -/
theorem s3only_put_dedup (hashF : Content → Nat) (s : List S3Obj) (name : String)
    (c : Content) (now : Int) (obj : S3Obj)
    (hℓ : lookupObj s latestFname = some obj) (hsha : obj.sha = hashF c) :
    s3only_put hashF s name c now =
      ({name := name, version := LATEST_VERSION, update_at := obj.time, sha256 := hashF c}, s) := by
  unfold s3only_put
  rw [hℓ]
  simp only [if_pos hsha]

/-- `put_artifact`'s write branch (object-store-only backend): LATEST absent
or holding a different hash — the object is rewritten. -/
theorem s3only_put_write (hashF : Content → Nat) (s : List S3Obj) (name : String)
    (c : Content) (now : Int)
    (h : ∀ obj, lookupObj s latestFname = some obj → ¬ obj.sha = hashF c) :
    s3only_put hashF s name c now =
      ({name := name, version := LATEST_VERSION, update_at := now, sha256 := hashF c},
        insertObj s {fname := latestFname, content := c, sha := hashF c, time := now}) := by
  unfold s3only_put
  cases hl : lookupObj s latestFname with
  | none => rfl
  | some obj => simp only [if_neg (h obj hl)]

/-- `put_artifact`'s dedup branch (hybrid backend). -/
theorem hyb_put_dedup (hashF : Content → Nat) (st : HState) (name : String)
    (c : Content) (now : Int) (obj : S3Obj)
    (hℓ : lookupObj st.s3 hybLatestKey = some obj) (hsha : obj.sha = hashF c) :
    hyb_put hashF st name c now =
      ({name := name, version := LATEST_VERSION, update_at := obj.time, sha256 := hashF c}, st) := by
  unfold hyb_put
  rw [hℓ]
  simp only [if_pos hsha]

/-- `put_artifact`'s write branch (hybrid backend): S3 LATEST is written,
then the LATEST row is saved. -/
theorem hyb_put_write (hashF : Content → Nat) (st : HState) (name : String)
    (c : Content) (now : Int)
    (h : ∀ obj, lookupObj st.s3 hybLatestKey = some obj → ¬ obj.sha = hashF c) :
    hyb_put hashF st name c now =
      ({name := name, version := LATEST_VERSION, update_at := now, sha256 := hashF c},
        ⟨insertObj st.s3 ⟨hybLatestKey, c, hashF c, now⟩,
          putRow st.table ⟨LATEST_VERSION, now, false, hashF c⟩⟩) := by
  unfold hyb_put
  cases hl : lookupObj st.s3 hybLatestKey with
  | none => rfl
  | some obj => simp only [if_neg (h obj hl)]

/-- C2.  In both backends: calling `put_artifact` a second time with the
identical payload is a no-op — the state (objects and index rows) is
unchanged and the returned record carries the original hash; calling
`put_artifact` with a different payload always rewrites LATEST, storing the
new hash and the new write timestamp (in the hybrid backend, in both the S3
object and the index row). -/
theorem C2_put_artifact_idempotence
    (hashF : Content → Nat) (hinj : Function.Injective hashF) :
    (∀ (s : List S3Obj) (name : String) (c : Content) (t₁ t₂ : Int),
      (s3only_put hashF (s3only_put hashF s name c t₁).2 name c t₂).2 =
        (s3only_put hashF s name c t₁).2 ∧
      (s3only_put hashF (s3only_put hashF s name c t₁).2 name c t₂).1.sha256 = hashF c) ∧
    (∀ (s : List S3Obj) (name : String) (c c' : Content) (t₁ t₂ : Int), c ≠ c' →
      lookupObj (s3only_put hashF (s3only_put hashF s name c t₁).2 name c' t₂).2 latestFname
        = some ⟨latestFname, c', hashF c', t₂⟩) ∧
    (∀ (st : HState) (name : String) (c : Content) (t₁ t₂ : Int),
      (hyb_put hashF (hyb_put hashF st name c t₁).2 name c t₂).2 =
        (hyb_put hashF st name c t₁).2 ∧
      (hyb_put hashF (hyb_put hashF st name c t₁).2 name c t₂).1.sha256 = hashF c) ∧
    (∀ (st : HState) (name : String) (c c' : Content) (t₁ t₂ : Int), c ≠ c' →
      lookupObj (hyb_put hashF (hyb_put hashF st name c t₁).2 name c' t₂).2.s3 hybLatestKey
        = some ⟨hybLatestKey, c', hashF c', t₂⟩ ∧
      (hyb_put hashF (hyb_put hashF st name c t₁).2 name c' t₂).2.table.find?
        (fun x => x.sk = LATEST_VERSION)
        = some ⟨LATEST_VERSION, t₂, false, hashF c'⟩) := by
  refine ⟨?_, ?_, ?_, ?_⟩
  · intro s name c t₁ t₂
    obtain ⟨obj, hℓ, hsha⟩ := s3only_put_latest hashF s name c t₁
    rw [s3only_put_dedup hashF _ name c t₂ obj hℓ hsha]
    exact ⟨rfl, rfl⟩
  · intro s name c c' t₁ t₂ hne
    obtain ⟨obj, hℓ, hsha⟩ := s3only_put_latest hashF s name c t₁
    rw [s3only_put_write hashF _ name c' t₂ (by
      intro obj' hobj' heq
      rw [hobj'] at hℓ
      cases hℓ
      exact hne (hinj (hsha ▸ heq)))]
    exact lookupObj_insertObj_self _ _
  · intro st name c t₁ t₂
    obtain ⟨obj, hℓ, hsha⟩ := hyb_put_latest hashF st name c t₁
    rw [hyb_put_dedup hashF _ name c t₂ obj hℓ hsha]
    exact ⟨rfl, rfl⟩
  · intro st name c c' t₁ t₂ hne
    obtain ⟨obj, hℓ, hsha⟩ := hyb_put_latest hashF st name c t₁
    rw [hyb_put_write hashF _ name c' t₂ (by
      intro obj' hobj' heq
      rw [hobj'] at hℓ
      cases hℓ
      exact hne (hinj (hsha ▸ heq)))]
    refine ⟨?_, ?_⟩
    · exact lookupObj_insertObj_self (hyb_put hashF st name c t₁).2.s3
        ⟨hybLatestKey, c', hashF c', t₂⟩
    · exact findRow_putRow_self (hyb_put hashF st name c t₁).2.table
        ⟨LATEST_VERSION, t₂, false, hashF c'⟩

/-- Witness for C2: the four behaviours at hash function `id`, content 7
versus 8, on the empty stores. -/
theorem C2_witness :
    (s3only_put (fun c => c) (s3only_put (fun c => c) [] "app" 7 0).2 "app" 7 1).2 =
      (s3only_put (fun c => c) [] "app" 7 0).2 ∧
    lookupObj (s3only_put (fun c => c)
        (s3only_put (fun c => c) [] "app" 7 0).2 "app" 8 1).2 latestFname
      = some ⟨latestFname, 8, 8, 1⟩ ∧
    (hyb_put (fun c => c) (hyb_put (fun c => c) ⟨[], []⟩ "app" 7 0).2 "app" 7 1).2 =
      (hyb_put (fun c => c) ⟨[], []⟩ "app" 7 0).2 := by
  have h := C2_put_artifact_idempotence (fun c => c) (fun a b hab => hab)
  exact ⟨(h.1 [] "app" 7 0 1).1, h.2.1 [] "app" 7 8 0 1 (by decide),
    (h.2.2.1 ⟨[], []⟩ "app" 7 0 1).1⟩

/-! ### Publish branch characterizations (claims C1, C5, C7) -/

theorem lookupObj_cons_self (o : S3Obj) (rest : List S3Obj) (k : String)
    (h : o.fname = k) : lookupObj (o :: rest) k = some o := by
  unfold lookupObj
  simp [List.find?, h]

/-- `publish` on an empty keyspace fails with `ArtifactNotFound`
(object-store-only backend). -/
theorem s3only_publish_empty (etagOf : Content → Nat) (name : String) (now : Int) :
    s3only_publish etagOf [] name now = .error .artifactNotFound := rfl

/-- `publish` with only the LATEST object copies it to version `"1"`
(object-store-only backend). -/
theorem s3only_publish_single (etagOf : Content → Nat) (lobj : S3Obj) (name : String)
    (now : Int) (hl : lobj.fname = latestFname) :
    s3only_publish etagOf [lobj] name now =
      .ok (⟨name, "1", now, lobj.sha⟩,
        insertObj [lobj] ⟨encode_filename (.vstr "1"), lobj.content, lobj.sha, now⟩) := by
  unfold s3only_publish
  rw [lookupObj_cons_self lobj [] latestFname hl]
  rfl

/-- `publish` with at least two listed objects: decode the second object's
version; return it unchanged when its entity tag matches LATEST's, otherwise
copy LATEST to the next version (object-store-only backend). -/
theorem s3only_publish_ge2 (etagOf : Content → Nat) (lobj prev : S3Obj)
    (rest : List S3Obj) (name : String) (now : Int) (hl : lobj.fname = latestFname) :
    s3only_publish etagOf (lobj :: prev :: rest) name now =
      if etagOf prev.content = etagOf lobj.content then
        .ok (⟨name, decode_filename prev.fname, prev.time, prev.sha⟩, lobj :: prev :: rest)
      else
        .ok (⟨name, natToStr (pyInt (decode_filename prev.fname) + 1), now, lobj.sha⟩,
          insertObj (lobj :: prev :: rest)
            ⟨encode_filename (.vstr (natToStr (pyInt (decode_filename prev.fname) + 1))),
              lobj.content, lobj.sha, now⟩) := by
  unfold s3only_publish
  rw [lookupObj_cons_self lobj (prev :: rest) latestFname hl]
  rfl

/-- `publish` with a single queried row (hybrid backend): the new version is
`encode_version(1)`, LATEST's payload is copied, a fresh row is saved. -/
theorem hyb_publish_one (st : HState) (name : String) (now : Int) (a0 : DdbRow)
    (lobj : S3Obj) (hq : queryDesc st.table = [a0])
    (hlk : lookupObj st.s3 hybLatestKey = some lobj) :
    hyb_publish st name now = .ok
      (rowArtifact name
        ⟨ddb_encode_version (.vstr (ddb_encode_version (.vint 1))), now, false, a0.sha256⟩,
       ⟨insertObj st.s3
          ⟨encode_version_sk (.vstr (ddb_encode_version (.vint 1))), lobj.content,
            lobj.sha, now⟩,
        putRow st.table
          ⟨ddb_encode_version (.vstr (ddb_encode_version (.vint 1))), now, false,
            a0.sha256⟩⟩) := by
  unfold hyb_publish
  rw [hq]
  rw [hlk]
  rfl

/-- `publish` with at least two queried rows (hybrid backend): the new
version is the second row's decoded version plus one; LATEST's payload is
copied and a fresh row saved regardless of content hashes. -/
theorem hyb_publish_many (st : HState) (name : String) (now : Int) (a0 a1 : DdbRow)
    (t : List DdbRow) (lobj : S3Obj) (hq : queryDesc st.table = a0 :: a1 :: t)
    (hlk : lookupObj st.s3 hybLatestKey = some lobj) :
    hyb_publish st name now = .ok
      (rowArtifact name
        ⟨ddb_encode_version (.vstr (natToStr (pyInt (ddb_decode_sk a1.sk) + 1))), now,
          false, a0.sha256⟩,
       ⟨insertObj st.s3
          ⟨encode_version_sk (.vstr (natToStr (pyInt (ddb_decode_sk a1.sk) + 1))),
            lobj.content, lobj.sha, now⟩,
        putRow st.table
          ⟨ddb_encode_version (.vstr (natToStr (pyInt (ddb_decode_sk a1.sk) + 1))), now,
            false, a0.sha256⟩⟩) := by
  unfold hyb_publish
  rw [hq]
  rw [hlk]
  rfl

theorem putRow_length_of_not_mem (t : List DdbRow) (r : DdbRow)
    (h : t.find? (fun x => x.sk = r.sk) = none) :
    (putRow t r).length = t.length + 1 := by
  induction t with
  | nil => rfl
  | cons x rest ih =>
    rw [List.find?] at h
    cases hx : (decide (x.sk = r.sk)) with
    | true => rw [hx] at h; exact absurd h (by simp)
    | false =>
      rw [hx] at h
      have hxk : ¬ x.sk = r.sk := of_decide_eq_false hx
      have hk : ¬ r.sk = x.sk := fun hc => hxk hc.symm
      unfold putRow
      simp only [hk, if_false]
      by_cases hlt : lexLtb r.sk.data x.sk.data
      · simp [hlt]
      · have hrest : List.find? (fun x => decide (x.sk = r.sk)) rest = none := h
        simp [hlt, ih hrest]

/-! ### Claim C1: publish branching -/

/-- C1, counterexample.  The claim's third branch ("otherwise returns the
previous numeric version plus 1") fails in the object-store-only backend:
with LATEST and version 1 present and their entity tags equal, publish
returns version `"1"` (the existing version, unchanged store), not
`"2" = previous + 1`. -/
theorem C1_counterexample :
    s3only_publish (fun c => c)
        [⟨"000000_LATEST", 7, 7, 0⟩, ⟨"999999_000001", 7, 7, 0⟩] "app" 1
      = .ok (⟨"app", "1", 0, 7⟩,
          [⟨"000000_LATEST", 7, 7, 0⟩, ⟨"999999_000001", 7, 7, 0⟩]) ∧
    ("1" : String) ≠ natToStr (pyInt (decode_filename "999999_000001") + 1) := by
  exact ⟨rfl, by decide⟩

/-- C1, amended.  `publish_artifact_version`, in both backends: raises
`ArtifactNotFound` when the version keyspace lists/queries zero entries;
creates version `"1"` by copying LATEST's payload when exactly one entry
(LATEST) exists; and otherwise returns the previous numeric version plus 1 —
unconditionally in the hybrid backend, but in the object-store-only backend
only when the most recent version's entity tag differs from LATEST's
(when they are equal, the existing previous version is returned and no new
object is created). -/
theorem C1_publish_branching_amended (etagOf : Content → Nat) :
    (∀ (name : String) (now : Int),
      s3only_publish etagOf [] name now = .error .artifactNotFound) ∧
    (∀ (st : HState) (name : String) (now : Int), queryDesc st.table = [] →
      hyb_publish st name now = .error .artifactNotFound) ∧
    (∀ (name : String) (now : Int) (lobj : S3Obj), lobj.fname = latestFname →
      ∃ s', s3only_publish etagOf [lobj] name now = .ok (⟨name, "1", now, lobj.sha⟩, s') ∧
        lookupObj s' (encode_filename (.vstr "1")) =
          some ⟨encode_filename (.vstr "1"), lobj.content, lobj.sha, now⟩) ∧
    (∀ (st : HState) (name : String) (now : Int) (a0 : DdbRow) (lobj : S3Obj),
      queryDesc st.table = [a0] → lookupObj st.s3 hybLatestKey = some lobj →
      ∃ a st', hyb_publish st name now = .ok (a, st') ∧ a.version = "1" ∧
        lookupObj st'.s3 (encode_version_sk (.vstr (ddb_encode_version (.vint 1)))) =
          some ⟨encode_version_sk (.vstr (ddb_encode_version (.vint 1))), lobj.content,
            lobj.sha, now⟩) ∧
    (∀ (st : HState) (name : String) (now : Int) (a0 a1 : DdbRow) (t : List DdbRow)
      (lobj : S3Obj) (n : Nat),
      queryDesc st.table = a0 :: a1 :: t → a1.sk = ddb_encode_version (.vint n) →
      1 ≤ n → lookupObj st.s3 hybLatestKey = some lobj →
      ∃ a st', hyb_publish st name now = .ok (a, st') ∧ a.version = natToStr (n + 1)) ∧
    (∀ (name : String) (now : Int) (lobj prev : S3Obj) (rest : List S3Obj) (n : Nat),
      lobj.fname = latestFname → prev.fname = encode_filename (.vint n) →
      1 ≤ n → n ≤ 999999 →
      (¬ etagOf prev.content = etagOf lobj.content →
        ∃ s', s3only_publish etagOf (lobj :: prev :: rest) name now =
          .ok (⟨name, natToStr (n + 1), now, lobj.sha⟩, s')) ∧
      (etagOf prev.content = etagOf lobj.content →
        s3only_publish etagOf (lobj :: prev :: rest) name now =
          .ok (⟨name, natToStr n, prev.time, prev.sha⟩, lobj :: prev :: rest))) := by
  refine ⟨?_, ?_, ?_, ?_, ?_, ?_⟩
  · intro name now
    exact s3only_publish_empty etagOf name now
  · intro st name now hq
    unfold hyb_publish
    rw [hq]
    rfl
  · intro name now lobj hl
    exact ⟨_, s3only_publish_single etagOf lobj name now hl,
      lookupObj_insertObj_self [lobj] _⟩
  · intro st name now a0 lobj hq hlk
    refine ⟨_, _, hyb_publish_one st name now a0 lobj hq hlk, rfl, ?_⟩
    exact lookupObj_insertObj_self st.s3
      ⟨encode_version_sk (.vstr (ddb_encode_version (.vint 1))), lobj.content, lobj.sha, now⟩
  · intro st name now a0 a1 t lobj n hq hsk h1 hlk
    have hdec : ddb_decode_sk a1.sk = natToStr n := by
      rw [hsk]
      exact lstrip_zfill_natToStr n h1
    have hpy : pyInt (natToStr n) = n := pyIntChars_natToChars n
    have heq := hyb_publish_many st name now a0 a1 t lobj hq hlk
    rw [hdec, hpy] at heq
    refine ⟨_, _, heq, ?_⟩
    show ddb_decode_sk (ddb_encode_version (.vstr (natToStr (n + 1)))) = natToStr (n + 1)
    exact lstrip_zfill_natToStr (n + 1) (by omega)
  · intro name now lobj prev rest n hl hprev h1 h2
    have hdecode : decode_filename prev.fname = natToStr n := by
      rw [hprev, encode_filename_vint n]
      exact decode_filename_core n h1 h2 _
    have hpy : pyInt (natToStr n) = n := pyIntChars_natToChars n
    have hge2 := s3only_publish_ge2 etagOf lobj prev rest name now hl
    rw [hdecode, hpy] at hge2
    constructor
    · intro hne
      rw [if_neg hne] at hge2
      exact ⟨_, hge2⟩
    · intro he
      rw [if_pos he] at hge2
      exact hge2

/-- Witness for C1: the zero- and one-entry branches at concrete stores. -/
theorem C1_witness :
    s3only_publish (fun c => c) [] "app" 0 = .error .artifactNotFound ∧
    (∃ s', s3only_publish (fun c => c) [⟨"000000_LATEST", 7, 7, 0⟩] "app" 1 =
        .ok (⟨"app", "1", 1, 7⟩, s') ∧
      lookupObj s' (encode_filename (.vstr "1")) =
        some ⟨encode_filename (.vstr "1"), 7, 7, 1⟩) := by
  have h := C1_publish_branching_amended (fun c => c)
  exact ⟨h.1 "app" 0, h.2.2.1 "app" 1 ⟨"000000_LATEST", 7, 7, 0⟩ (by decide)⟩

/-! ### Claim C7: publish dedup divergence between the backends -/

/-- C7.  When publish is called again without LATEST having changed: the
object-store-only backend detects this by comparing the most recent numbered
version's entity tag with LATEST's and returns the existing numbered version
with the store unchanged (no new object); the hybrid backend, even when the
LATEST row's hash equals the newest version row's hash, always creates a new
index row (the row count grows by one) and a new S3 copy of LATEST at the
next version number. -/
theorem C7_publish_dedup_divergence (etagOf : Content → Nat) :
    (∀ (name : String) (now : Int) (lobj prev : S3Obj) (rest : List S3Obj),
      lobj.fname = latestFname →
      etagOf prev.content = etagOf lobj.content →
      s3only_publish etagOf (lobj :: prev :: rest) name now =
        .ok (⟨name, decode_filename prev.fname, prev.time, prev.sha⟩,
          lobj :: prev :: rest)) ∧
    (∀ (st : HState) (name : String) (now : Int) (a0 a1 : DdbRow) (t : List DdbRow)
      (lobj : S3Obj) (n : Nat),
      queryDesc st.table = a0 :: a1 :: t → a1.sk = ddb_encode_version (.vint n) →
      1 ≤ n → lookupObj st.s3 hybLatestKey = some lobj →
      a0.sha256 = a1.sha256 →
      st.table.find? (fun x => x.sk = ddb_encode_version (.vstr (natToStr (n + 1)))) = none →
      ∃ a st', hyb_publish st name now = .ok (a, st') ∧
        a.version = natToStr (n + 1) ∧
        st'.table.length = st.table.length + 1 ∧
        st'.table.find? (fun x => x.sk = ddb_encode_version (.vstr (natToStr (n + 1)))) =
          some ⟨ddb_encode_version (.vstr (natToStr (n + 1))), now, false, a0.sha256⟩ ∧
        lookupObj st'.s3 (encode_version_sk (.vstr (natToStr (n + 1)))) =
          some ⟨encode_version_sk (.vstr (natToStr (n + 1))), lobj.content, lobj.sha, now⟩) := by
  constructor
  · intro name now lobj prev rest hl he
    rw [s3only_publish_ge2 etagOf lobj prev rest name now hl, if_pos he]
  · intro st name now a0 a1 t lobj n hq hsk h1 hlk hsha hnew
    have hdec : ddb_decode_sk a1.sk = natToStr n := by
      rw [hsk]
      exact lstrip_zfill_natToStr n h1
    have hpy : pyInt (natToStr n) = n := pyIntChars_natToChars n
    have heq := hyb_publish_many st name now a0 a1 t lobj hq hlk
    rw [hdec, hpy] at heq
    refine ⟨_, _, heq, ?_, ?_, ?_, ?_⟩
    · show ddb_decode_sk (ddb_encode_version (.vstr (natToStr (n + 1)))) = natToStr (n + 1)
      exact lstrip_zfill_natToStr (n + 1) (by omega)
    · exact putRow_length_of_not_mem st.table
        ⟨ddb_encode_version (.vstr (natToStr (n + 1))), now, false, a0.sha256⟩ hnew
    · exact findRow_putRow_self st.table
        ⟨ddb_encode_version (.vstr (natToStr (n + 1))), now, false, a0.sha256⟩
    · exact lookupObj_insertObj_self st.s3
        ⟨encode_version_sk (.vstr (natToStr (n + 1))), lobj.content, lobj.sha, now⟩

/-- Witness for C7: both halves at concrete stores with identical content in
LATEST and version 1. -/
theorem C7_witness :
    s3only_publish (fun c => c)
        [⟨"000000_LATEST", 7, 7, 5⟩, ⟨"999999_000001", 7, 7, 2⟩] "app" 9 =
      .ok (⟨"app", decode_filename "999999_000001", 2, 7⟩,
        [⟨"000000_LATEST", 7, 7, 5⟩, ⟨"999999_000001", 7, 7, 2⟩]) ∧
    (∃ a st', hyb_publish
        ⟨[⟨"LATEST", 7, 7, 5⟩], [⟨"000001", 0, false, 7⟩, ⟨"LATEST", 5, false, 7⟩]⟩
        "app" 9 = .ok (a, st') ∧
      a.version = natToStr (1 + 1) ∧
      st'.table.length = [⟨"000001", 0, false, 7⟩,
        (⟨"LATEST", 5, false, 7⟩ : DdbRow)].length + 1 ∧
      st'.table.find? (fun x => x.sk = ddb_encode_version (.vstr (natToStr (1 + 1)))) =
        some ⟨ddb_encode_version (.vstr (natToStr (1 + 1))), 9, false, 7⟩ ∧
      lookupObj st'.s3 (encode_version_sk (.vstr (natToStr (1 + 1)))) =
        some ⟨encode_version_sk (.vstr (natToStr (1 + 1))), 7, 7, 9⟩) := by
  have h := C7_publish_dedup_divergence (fun c => c)
  refine ⟨h.1 "app" 9 ⟨"000000_LATEST", 7, 7, 5⟩ ⟨"999999_000001", 7, 7, 2⟩ []
    (by decide) rfl, ?_⟩
  exact h.2 ⟨[⟨"LATEST", 7, 7, 5⟩], [⟨"000001", 0, false, 7⟩, ⟨"LATEST", 5, false, 7⟩]⟩
    "app" 9 ⟨"LATEST", 5, false, 7⟩ ⟨"000001", 0, false, 7⟩ [] ⟨"LATEST", 7, 7, 5⟩ 1
    (by decide) (by decide) (by decide) (by decide) (by decide) (by decide)

/-! ### Claim C5: version numbers are reused in the object-store-only backend -/

/-- C5, code bug.  In the object-store-only backend a version number is
reused after a delete: publishing assigns version `"2"`, deleting version 2
physically removes its object (although `delete_artifact_version`'s own
docstring says "this is a soft delete, neither the S3 artifact nor the
DynamoDB item is deleted"), and the next publish assigns the same number
`"2"` again — violating the claimed invariant that a version number once
created is never reused. -/
theorem C5_s3only_version_reuse :
    c5_pub2 = .ok (⟨"app", "2", 3, 2⟩, c5_s4) ∧
    c5_s4 = [⟨"000000_LATEST", 2, 2, 2⟩, ⟨"999998_000002", 2, 2, 3⟩,
      ⟨"999999_000001", 1, 1, 1⟩] ∧
    c5_s5 = [⟨"000000_LATEST", 2, 2, 2⟩, ⟨"999999_000001", 1, 1, 1⟩] ∧
    c5_pub3 = .ok (⟨"app", "2", 4, 2⟩,
      [⟨"000000_LATEST", 2, 2, 2⟩, ⟨"999998_000002", 2, 2, 4⟩,
        ⟨"999999_000001", 1, 1, 1⟩]) := by
  exact ⟨rfl, rfl, rfl, rfl⟩

/-! ### Claim C3: soft delete in the hybrid backend -/

theorem find?_map_flag (t : List DdbRow) (key : String) (row : DdbRow)
    (h : t.find? (fun r => r.sk = key) = some row) :
    (t.map (fun r => if r.sk = key then {r with is_deleted := true} else r)).find?
      (fun r => r.sk = key) = some {row with is_deleted := true} := by
  induction t with
  | nil => simp [List.find?] at h
  | cons x rest ih =>
    rw [List.find?] at h
    cases hx : (decide (x.sk = key)) with
    | true =>
      rw [hx] at h
      have hxr : x = row := by injection h
      have hxk : x.sk = key := of_decide_eq_true hx
      simp only [List.map_cons, if_pos hxk, List.find?]
      have hd : (decide (({x with is_deleted := true} : DdbRow).sk = key)) = true := by
        simp only [decide_eq_true_eq]
        exact hxk
      rw [hd, hxr]
    | false =>
      rw [hx] at h
      have hxk : ¬ x.sk = key := of_decide_eq_false hx
      simp only [List.map_cons, if_neg hxk, List.find?, hx]
      exact ih h

theorem find?_map_flag_ne (t : List DdbRow) (key k : String) (hne : ¬ k = key) :
    (t.map (fun r => if r.sk = key then {r with is_deleted := true} else r)).find?
      (fun r => r.sk = k) = t.find? (fun r => r.sk = k) := by
  induction t with
  | nil => rfl
  | cons x rest ih =>
    by_cases hxkey : x.sk = key
    · have hxk : (decide (x.sk = k)) = false := by
        simp only [decide_eq_false_iff_not]
        intro hcontra
        exact hne (hcontra ▸ hxkey)
      have hflag : (decide (({x with is_deleted := true} : DdbRow).sk = k)) = false := by
        simp only [decide_eq_false_iff_not]
        intro hcontra
        exact hne (hcontra ▸ hxkey)
      simp only [List.map_cons, if_pos hxkey, List.find?, hxk, hflag]
      exact ih
    · simp only [List.map_cons, if_neg hxkey, List.find?]
      cases hxk : (decide (x.sk = k)) with
      | true => rfl
      | false => exact ih

/-- C3.  In the hybrid backend, deleting an existing (live) artifact
version only sets the deleted flag on its index row: the S3 objects are
untouched, every other row is unchanged, and the flagged row keeps all its
other attributes; afterwards `get_artifact_version` for that name/version
raises `ArtifactNotFound`; and `list_artifact_versions` only ever returns
records of rows whose deleted flag is clear. -/
theorem C3_soft_delete_semantics (st : HState) (name : String) (v : PyVersion)
    (row : DdbRow) (hv : v ≠ PyVersion.vnone)
    (hrow : st.table.find? (fun r => r.sk = ddb_encode_version v) = some row)
    (hlive : row.is_deleted = false) :
    (hyb_delete st (some v)).s3 = st.s3 ∧
    (hyb_delete st (some v)).table.find? (fun r => r.sk = ddb_encode_version v) =
      some {row with is_deleted := true} ∧
    (∀ k, ¬ k = ddb_encode_version v →
      (hyb_delete st (some v)).table.find? (fun r => r.sk = k) =
        st.table.find? (fun r => r.sk = k)) ∧
    (hyb_delete st (some v)).table.length = st.table.length ∧
    hyb_get (hyb_delete st (some v)) name (some v) = .error .artifactNotFound ∧
    (∀ (st' : HState) (a : ArtifactRec), a ∈ hyb_list_artifact_versions name st' →
      ∃ r ∈ st'.table, r.is_deleted = false ∧ a = rowArtifact name r) := by
  have hsk : encode_version_sk v = ddb_encode_version v := by
    cases v with
    | vnone => exact absurd rfl hv
    | vint n => rfl
    | vstr s => rfl
  refine ⟨rfl, ?_, ?_, ?_, ?_, ?_⟩
  · exact find?_map_flag st.table _ row hrow
  · intro k hk
    exact find?_map_flag_ne st.table _ k hk
  · show (st.table.map _).length = st.table.length
    rw [List.length_map]
  · show hyb_get (hyb_delete st (some v)) name (some v) = .error .artifactNotFound
    unfold hyb_get
    have hfind := find?_map_flag st.table _ row hrow
    show (match (hyb_delete st (some v)).table.find?
        (fun r => r.sk = encode_version_sk v) with
      | none => Except.error RepoError.artifactNotFound
      | some r => if r.is_deleted then .error .artifactNotFound
                  else .ok (rowArtifact name r)) = .error .artifactNotFound
    rw [hsk]
    show (match (st.table.map
        (fun r => if r.sk = ddb_encode_version v then {r with is_deleted := true} else r)).find?
        (fun r => r.sk = ddb_encode_version v) with
      | none => Except.error RepoError.artifactNotFound
      | some r => if r.is_deleted then .error .artifactNotFound
                  else .ok (rowArtifact name r)) = .error .artifactNotFound
    rw [hfind]
    simp
  · intro st' a ha
    unfold hyb_list_artifact_versions at ha
    obtain ⟨r, hr, hra⟩ := List.mem_map.mp ha
    have hmem := List.mem_filter.mp hr
    refine ⟨r, ?_, ?_, hra.symm⟩
    · have : r ∈ queryDesc st'.table := hmem.1
      unfold queryDesc at this
      exact List.mem_reverse.mp this
    · exact of_decide_eq_true hmem.2

/-- Witness for C3: deleting existing version 1 in a two-row partition. -/
theorem C3_witness :
    (hyb_delete ⟨[⟨"LATEST", 9, 9, 5⟩], [⟨"000001", 3, false, 9⟩, ⟨"LATEST", 5, false, 9⟩]⟩
      (some (.vint 1))).s3 = [⟨"LATEST", 9, 9, 5⟩] ∧
    hyb_get (hyb_delete ⟨[⟨"LATEST", 9, 9, 5⟩],
        [⟨"000001", 3, false, 9⟩, ⟨"LATEST", 5, false, 9⟩]⟩ (some (.vint 1)))
      "app" (some (.vint 1)) = .error .artifactNotFound := by
  have h := C3_soft_delete_semantics
    ⟨[⟨"LATEST", 9, 9, 5⟩], [⟨"000001", 3, false, 9⟩, ⟨"LATEST", 5, false, 9⟩]⟩
    "app" (.vint 1) ⟨"000001", 3, false, 9⟩ (by decide) (by decide) (by decide)
  exact ⟨h.1, h.2.2.2.2.1⟩

/-! ### Claim C4: put_alias validation -/

/-- C4, counterexample.  `put_alias` accepts the alias name `"LATEST"`:
with artifact version 1 present, the object-store-only backend's `put_alias`
writes an alias document named `LATEST` and returns it — no validation error
is raised, although the claim requires one.  (The module-level
`validate_alias_name`, which would reject it, is never called by
`put_alias`.) -/
theorem C4_counterexample :
    s3only_put_alias [⟨"999999_000001", 7, 7, 0⟩] [] "app" "LATEST" (.vint 1) none .wnone 1
      = .ok (⟨"app", "LATEST", "1", none, .wnone, 1⟩,
          [⟨"app", "LATEST", "1", none, .wnone, 1⟩]) ∧
    validate_alias_name "LATEST" = .error "alias name cannot be LATEST" := by
  exact ⟨rfl, rfl⟩

/-- C4, amended.  In both backends, `put_alias` raises a validation
error before any write exactly when: the alias name contains a hyphen, or a
secondary version is given with a non-integer weight, or with an integer
weight outside `[0, 100)`, or with an (encoded) primary version equal to the
(encoded) secondary version.  An alias name equal to the `LATEST` sentinel
is NOT rejected.  The validation outcome depends only on the arguments,
never on the stores, so a rejected call has no side effects. -/
theorem C4_put_alias_validation_amended (s : List S3Obj) (aliases : List AliasObj)
    (st : HState) (aliasRows : List AliasRow) (name aliasName : String)
    (version : PyVersion) (secondary : Option PyVersion) (weight : PyWeight) (now : Int) :
    ((s3only_put_alias s aliases name aliasName version secondary weight now
        = .error .valueError ∨
      s3only_put_alias s aliases name aliasName version secondary weight now
        = .error .typeError) ↔
      (aliasName.data.contains '-' = true ∨
        ∃ sv, secondary = some sv ∧
          (weight = .wnone ∨ weight = .wother ∨
            ∃ i, weight = .wint i ∧
              (¬ (0 ≤ i ∧ i < 100) ∨ encode_version version = encode_version sv)))) ∧
    ((hyb_put_alias st aliasRows name aliasName version secondary weight now
        = .error .valueError ∨
      hyb_put_alias st aliasRows name aliasName version secondary weight now
        = .error .typeError) ↔
      (aliasName.data.contains '-' = true ∨
        ∃ sv, secondary = some sv ∧
          (weight = .wnone ∨ weight = .wother ∨
            ∃ i, weight = .wint i ∧
              (¬ (0 ≤ i ∧ i < 100) ∨
                ddb_encode_version version = ddb_encode_version sv)))) := by
  constructor
  · unfold s3only_put_alias
    by_cases hc : aliasName.data.contains '-'
    · simp only [hc, if_pos rfl]
      simp [hc]
    · simp only [hc, if_false]
      cases secondary with
      | none =>
        simp only [hc]
        by_cases hex : (lookupObj s (encode_filename (.vstr (encode_version version)))).isNone
        · simp [hex]
        · simp [hex]
      | some sv =>
        cases weight with
        | wnone => simp [hc]
        | wother => simp [hc]
        | wint i =>
          by_cases hr : 0 ≤ i ∧ i < 100
          · simp only [hr, not_true, if_neg, if_false]
            by_cases heq : encode_version version = encode_version sv
            · simp [heq, hr]
            · simp only [heq, if_false]
              by_cases hex : (lookupObj s
                  (encode_filename (.vstr (encode_version version)))).isNone
              · simp [hex, hc, heq, hr]
              · simp only [hex, if_false]
                by_cases hex2 : (lookupObj s
                    (encode_filename (.vstr (encode_version sv)))).isNone
                · simp [hex2, hc, heq, hr]
                · simp [hex2, hc, heq, hr]
          · simp only [if_pos hr]
            refine ⟨fun _ => Or.inr ⟨sv, rfl, Or.inr (Or.inr ⟨i, rfl, Or.inl hr⟩)⟩,
              fun _ => Or.inl rfl⟩
  · unfold hyb_put_alias
    by_cases hc : aliasName.data.contains '-'
    · simp only [hc, if_pos rfl]
      simp [hc]
    · simp only [hc, if_false]
      cases secondary with
      | none =>
        simp only [hc]
        cases hex : hyb_get st name (some (.vstr (ddb_encode_version version))) with
        | error e => simp [hex]
        | ok a => simp [hex]
      | some sv =>
        cases weight with
        | wnone => simp [hc]
        | wother => simp [hc]
        | wint i =>
          by_cases hr : 0 ≤ i ∧ i < 100
          · simp only [hr, not_true, if_neg, if_false]
            by_cases heq : ddb_encode_version version = ddb_encode_version sv
            · simp [heq, hr]
            · simp only [heq, if_false]
              cases hex : hyb_get st name (some (.vstr (ddb_encode_version version))) with
              | error e => simp [hex, hc, heq, hr]
              | ok a =>
                cases hex2 : hyb_get st name (some (.vstr (ddb_encode_version sv))) with
                | error e => simp [hex, hex2, hc, heq, hr]
                | ok b => simp [hex, hex2, hc, heq, hr]
          · simp only [if_pos hr]
            refine ⟨fun _ => Or.inr ⟨sv, rfl, Or.inr (Or.inr ⟨i, rfl, Or.inl hr⟩)⟩,
              fun _ => Or.inl rfl⟩

/-- Witness for C4: an out-of-range weight is rejected, in both backends, on
concrete stores. -/
theorem C4_witness :
    (s3only_put_alias [⟨"999999_000001", 7, 7, 0⟩] [] "app" "prod" (.vint 1)
        (some (.vint 2)) (.wint 100) 1 = .error .valueError ∨
      s3only_put_alias [⟨"999999_000001", 7, 7, 0⟩] [] "app" "prod" (.vint 1)
        (some (.vint 2)) (.wint 100) 1 = .error .typeError) ∧
    (hyb_put_alias ⟨[], []⟩ [] "app" "prod" (.vint 1)
        (some (.vint 2)) .wnone 1 = .error .valueError ∨
      hyb_put_alias ⟨[], []⟩ [] "app" "prod" (.vint 1)
        (some (.vint 2)) .wnone 1 = .error .typeError) := by
  constructor
  · exact (C4_put_alias_validation_amended [⟨"999999_000001", 7, 7, 0⟩] [] ⟨[], []⟩ []
      "app" "prod" (.vint 1) (some (.vint 2)) (.wint 100) 1).1.mpr
      (Or.inr ⟨.vint 2, rfl, Or.inr (Or.inr ⟨100, rfl, Or.inl (by omega)⟩)⟩)
  · exact (C4_put_alias_validation_amended [] [] ⟨[], []⟩ []
      "app" "prod" (.vint 1) (some (.vint 2)) .wnone 1).2.mpr
      (Or.inr ⟨.vint 2, rfl, Or.inl rfl⟩)

/-! ### Claim C6: purge retention policy -/

/-- What one purge pass does: it returns the accumulated records followed by
the too-old entries of the remaining list, leaves S3 untouched, and flags in
the table exactly the rows whose sort key encodes a purged version. -/
theorem purgeLoop_spec (expire : Int) :
    ∀ (l : List ArtifactRec) (st : HState) (acc : List ArtifactRec),
      (purgeLoop expire l st acc).2 =
        acc ++ l.filter (fun a => a.update_at < expire) ∧
      (purgeLoop expire l st acc).1.s3 = st.s3 ∧
      (purgeLoop expire l st acc).1.table = st.table.map (fun r =>
        if (l.filter (fun a => a.update_at < expire)).any
            (fun a => r.sk = ddb_encode_version (.vstr a.version))
        then {r with is_deleted := true} else r) := by
  intro l
  induction l with
  | nil =>
    intro st acc
    refine ⟨by simp [purgeLoop], rfl, ?_⟩
    simp [purgeLoop]
  | cons a rest ih =>
    intro st acc
    by_cases hcond : a.update_at < expire
    · have hstep : purgeLoop expire (a :: rest) st acc =
          purgeLoop expire rest (hyb_delete st (some (.vstr a.version))) (acc ++ [a]) := by
        show (if a.update_at < expire
          then purgeLoop expire rest (hyb_delete st (some (.vstr a.version))) (acc ++ [a])
          else purgeLoop expire rest st acc) = _
        rw [if_pos hcond]
      rw [hstep]
      obtain ⟨h2, hs3, htab⟩ := ih (hyb_delete st (some (.vstr a.version))) (acc ++ [a])
      have hfilter : (a :: rest).filter (fun a => a.update_at < expire) =
          a :: rest.filter (fun a => a.update_at < expire) :=
        List.filter_cons_of_pos (by simpa using hcond)
      refine ⟨?_, ?_, ?_⟩
      · rw [h2, hfilter]
        simp
      · rw [hs3]
        rfl
      · rw [htab, hfilter]
        show (st.table.map _).map _ = st.table.map _
        rw [List.map_map]
        apply List.map_congr_left
        intro r _
        simp only [Function.comp]
        by_cases hik : r.sk = ddb_encode_version (.vstr a.version)
        · simp [hik]
        · simp [hik]
    · have hstep : purgeLoop expire (a :: rest) st acc =
          purgeLoop expire rest st acc := by
        show (if a.update_at < expire
          then purgeLoop expire rest (hyb_delete st (some (.vstr a.version))) (acc ++ [a])
          else purgeLoop expire rest st acc) = _
        rw [if_neg hcond]
      rw [hstep]
      obtain ⟨h2, hs3, htab⟩ := ih st acc
      have hfilter : (a :: rest).filter (fun a => a.update_at < expire) =
          rest.filter (fun a => a.update_at < expire) :=
        List.filter_cons_of_neg (by simpa using hcond)
      rw [hfilter]
      exact ⟨h2, hs3, htab⟩

/-- C6, counterexample.  `purge_artifact_versions` does not hard-delete:
on a partition with LATEST and versions 1 and 2 (both old), purging with
`keep_last_n = 0` returns versions 2 and 1 as purged, yet both index rows
are still present (merely flagged) and object storage is untouched — the
claim's "hard-deletes (from both object storage and the index)" fails. -/
theorem C6_counterexample :
    (hyb_purge ⟨[⟨"LATEST", 9, 9, 100⟩],
        [⟨"000001", 0, false, 9⟩, ⟨"000002", 0, false, 9⟩, ⟨"LATEST", 100, false, 9⟩]⟩
        "app" 0 10 50).1.2 =
      [⟨"app", "2", 0, 9⟩, ⟨"app", "1", 0, 9⟩] ∧
    (hyb_purge ⟨[⟨"LATEST", 9, 9, 100⟩],
        [⟨"000001", 0, false, 9⟩, ⟨"000002", 0, false, 9⟩, ⟨"LATEST", 100, false, 9⟩]⟩
        "app" 0 10 50).2.table =
      [⟨"000001", 0, true, 9⟩, ⟨"000002", 0, true, 9⟩, ⟨"LATEST", 100, false, 9⟩] ∧
    (hyb_purge ⟨[⟨"LATEST", 9, 9, 100⟩],
        [⟨"000001", 0, false, 9⟩, ⟨"000002", 0, false, 9⟩, ⟨"LATEST", 100, false, 9⟩]⟩
        "app" 0 10 50).2.s3 = [⟨"LATEST", 9, 9, 100⟩] := by
  exact ⟨rfl, rfl, rfl⟩

/-- C6, amended.  `purge_artifact_versions` lists the live versions
newest-first (LATEST first), exempts the first `keep_last_n + 1` entries
(LATEST plus the `keep_last_n` most recent numbered versions), and
soft-deletes — sets the deleted flag, leaving object storage and every row in
place — exactly those remaining versions whose `update_at` is older than
`purge_time − purge_older_than_secs`; it returns the purge timestamp and the
list of purged records. -/
theorem C6_purge_retention_amended (st : HState) (name : String) (keep_last_n : Nat)
    (secs purge_time : Int) :
    (hyb_purge st name keep_last_n secs purge_time).1.1 = purge_time ∧
    (hyb_purge st name keep_last_n secs purge_time).1.2 =
      ((hyb_list_artifact_versions name st).drop (keep_last_n + 1)).filter
        (fun a => a.update_at < purge_time - secs) ∧
    (hyb_purge st name keep_last_n secs purge_time).2.s3 = st.s3 ∧
    (hyb_purge st name keep_last_n secs purge_time).2.table = st.table.map (fun r =>
      if (((hyb_list_artifact_versions name st).drop (keep_last_n + 1)).filter
            (fun a => a.update_at < purge_time - secs)).any
          (fun a => r.sk = ddb_encode_version (.vstr a.version))
      then {r with is_deleted := true} else r) ∧
    (hyb_purge st name keep_last_n secs purge_time).2.table.length =
      st.table.length := by
  obtain ⟨h2, hs3, htab⟩ := purgeLoop_spec (purge_time - secs)
    ((hyb_list_artifact_versions name st).drop (keep_last_n + 1)) st []
  refine ⟨rfl, ?_, hs3, htab, ?_⟩
  · rw [show (hyb_purge st name keep_last_n secs purge_time).1.2 =
      (purgeLoop (purge_time - secs)
        ((hyb_list_artifact_versions name st).drop (keep_last_n + 1)) st []).2 from rfl]
    rw [h2]
    simp
  · rw [show (hyb_purge st name keep_last_n secs purge_time).2.table =
      (purgeLoop (purge_time - secs)
        ((hyb_list_artifact_versions name st).drop (keep_last_n + 1)) st []).1.table
      from rfl]
    rw [htab, List.length_map]

/-! ### Claim C10: storage-write-then-index-write ordering -/

/-- C10, amended.  In `s3_and_dynamodb_backend`, every mutating
execution of `put_artifact` and `publish_artifact_version` issues the S3
write before the DynamoDB write of the corresponding record, and so does
`core.py`'s `put_artifact`; but `core.py`'s `publish_artifact_version` saves
the index row before the S3 copy. -/
theorem C10_storage_before_index_amended :
    (∀ (hashF : Content → Nat) (st : HState) (c : Content),
      storageBeforeIndex (hyb_put_trace hashF st c) = true) ∧
    (∀ st : HState, storageBeforeIndex (hyb_publish_trace st) = true) ∧
    (∀ (hashF : Content → Nat) (st : HState) (c : Content),
      storageBeforeIndex (core_put_trace hashF st c) = true) := by
  refine ⟨?_, ?_, ?_⟩
  · intro hashF st c
    unfold hyb_put_trace
    cases hl : lookupObj st.s3 hybLatestKey with
    | some obj =>
      by_cases hsha : obj.sha = hashF c
      · simp only [hsha, if_pos rfl]
        rfl
      · simp only [hsha, if_false]
        rfl
    | none => rfl
  · intro st
    unfold hyb_publish_trace
    cases hq : (queryDesc st.table).take 2 with
    | nil => rfl
    | cons a0 rest =>
      cases rest with
      | nil =>
        show storageBeforeIndexGo []
          [.s3write (encode_version_sk (.vstr (ddb_encode_version (.vint 1)))),
           .ddbwrite (ddb_encode_version (.vstr (ddb_encode_version (.vint 1))))] = true
        decide
      | cons a1 t =>
        show storageBeforeIndexGo []
          [.s3write (encode_version_sk (.vstr (natToStr (pyInt (ddb_decode_sk a1.sk) + 1)))),
           .ddbwrite (ddb_encode_version
             (.vstr (natToStr (pyInt (ddb_decode_sk a1.sk) + 1))))] = true
        show (List.contains
          [encode_version_sk (.vstr (natToStr (pyInt (ddb_decode_sk a1.sk) + 1)))]
          (ddb_encode_version (.vstr (natToStr (pyInt (ddb_decode_sk a1.sk) + 1))))
          && true) = true
        simp [List.contains]
        rfl
  · intro hashF st c
    unfold core_put_trace
    cases hl : lookupObj st.s3 (ddb_encode_version (.vstr LATEST_VERSION)) with
    | some obj =>
      by_cases hsha : obj.sha = hashF c
      · simp only [hsha, if_pos rfl]
        rfl
      · simp only [hsha, if_false]
        rfl
    | none => rfl

/-- C10, counterexample.  `core.py`'s `publish_artifact_version` (one of
the hybrid-backend publish implementations the claim cites) writes the
DynamoDB row for the new version before its S3 copy: on a state holding only
a LATEST slot, its write trace is index-write then storage-write, violating
the claimed ordering. -/
theorem C10_counterexample :
    core_publish_trace ⟨[⟨"LATEST", 5, 5, 0⟩], [⟨"LATEST", 0, false, 5⟩]⟩ =
      [.ddbwrite "000001", .s3write "000001"] ∧
    storageBeforeIndex (core_publish_trace
      ⟨[⟨"LATEST", 5, 5, 0⟩], [⟨"LATEST", 0, false, 5⟩]⟩) = false := by
  exact ⟨by decide, by decide⟩

/-- Witness for C10: concrete mutating executions of the
`s3_and_dynamodb_backend` operations satisfy the ordering check. -/
theorem C10_witness :
    storageBeforeIndex (hyb_put_trace (fun c => c) ⟨[], []⟩ 7) = true ∧
    storageBeforeIndex
      (hyb_publish_trace ⟨[⟨"LATEST", 5, 5, 0⟩], [⟨"LATEST", 0, false, 5⟩]⟩) = true :=
  ⟨C10_storage_before_index_amended.1 (fun c => c) ⟨[], []⟩ 7,
   C10_storage_before_index_amended.2.1 ⟨[⟨"LATEST", 5, 5, 0⟩], [⟨"LATEST", 0, false, 5⟩]⟩⟩

end Versioned
